import Mathlib

/-!
Verification of the due-date "assign to" reconciliation code of
`ui/shared/due-dates/react/AssignToContent.jsx` and the paginated
fetch/merge logic of `ItemAssignToTrayContent`.

Overrides, cards and the handlers are shallowly embedded: JavaScript
objects become structures with `Option` fields (`none` models a missing
or `undefined` field), JS truthiness of string fields is modelled by
`truthyS` (absent and the empty string are falsy), arrays are `List`s
(a present array is always truthy, so array fields are tested with
`Option.isSome`).
-/

namespace AssignTo

/-- A backend/staged assignment override (the record shape handled by
`AssignToContent.jsx`).  `none` models an absent or `undefined` field. -/
structure Override where
  id : Option String := none
  stagedOverrideId : Option String := none
  course_section_id : Option String := none
  student_ids : Option (List String) := none
  students : Option (List String) := none
  group_id : Option String := none
  noop_id : Option String := none
  course_id : Option String := none
  context_module_id : Option String := none
  context_module_name : Option String := none
  unassign_item : Bool := false
  rowKey : Option String := none
  due_at : Option String := none
  unlock_at : Option String := none
  lock_at : Option String := none
  reply_to_topic_due_at : Option String := none
  required_replies_due_at : Option String := none
  due_at_overridden : Bool := false
  unlock_at_overridden : Bool := false
  lock_at_overridden : Bool := false
  reply_to_topic_due_at_overridden : Bool := false
  required_replies_due_at_overridden : Bool := false
deriving DecidableEq, Repr

/-- JS truthiness of a possibly-absent string field: `undefined`, `null`
and the empty string are falsy, every other string is truthy. -/
def truthyS (x : Option String) : Bool :=
  match x with
  | none => false
  | some s => !(s == "")

/-- Whether `needle` is an initial segment of `hay` (character lists). -/
def startsWithChars : List Char → List Char → Bool
  | [], _ => true
  | _ :: _, [] => false
  | a :: as, b :: bs => a == b && startsWithChars as bs

/-- Whether `needle` occurs contiguously inside `hay` (character lists). -/
def containsChars (needle : List Char) : List Char → Bool
  | [] => startsWithChars needle []
  | c :: rest => startsWithChars needle (c :: rest) || containsChars needle rest

/-- JS `String.prototype.includes`: substring containment. -/
def jsIncludes (s t : String) : Bool :=
  containsChars t.toList s.toList

/-- JS `String.prototype.split('-')` over a character list. -/
def splitDash : List Char → List (List Char)
  | [] => [[]]
  | c :: rest =>
    if c == Char.ofNat 45 then [] :: splitDash rest
    else
      match splitDash rest with
      | [] => [[c]]
      | h :: t => (c :: h) :: t

/-- JS `s.split('-')[1]`: the second part of the split, or `undefined`
when there is no separator.  Every reachable call site feeds strings of
the shape `section-<id>` / `student-<id>`, where the result is defined. -/
def jsSplitSecond (s : String) : Option String :=
  ((splitDash s.toList).map (fun l => String.mk l)).get? 1

/- ------------------------------------------------------------------
Staged-override-id tagging (AssignToContent.jsx lines 109-120):
every override of the `overrides` prop that lacks a `stagedOverrideId`
gets a freshly generated `uid()`; already-tagged overrides pass through
unchanged.  `gen` models the `uid()` generator: the n-th call returns
`gen n`.
------------------------------------------------------------------ -/

/-- The tagging map with the counter of `uid()` calls made so far: an
override lacking a `stagedOverrideId` receives the next generated id,
an already-tagged override passes through unchanged. -/
def tagOverridesAux (gen : Nat → String) : Nat → List Override → List Override
  | _, [] => []
  | n, o :: rest =>
    if o.stagedOverrideId.isNone then
      {o with stagedOverrideId := some (gen n)} :: tagOverridesAux gen (n + 1) rest
    else
      o :: tagOverridesAux gen n rest

/-- The effect at lines 109-120: `overrides.map(override =>
override.stagedOverrideId ? override : {...override, stagedOverrideId:
uid()})`, with the n-th `uid()` call modelled as `gen n`. -/
def tagOverrides (gen : Nat → String) (overrides : List Override) : List Override :=
  tagOverridesAux gen 0 overrides

/-- The replacement step of `handleAssigneeAddition` (lines 372-388):
if the staged list already holds an override with the new override's
`stagedOverrideId` (`findIndex`), replace the first such entry in
place; otherwise push the new override at the end. -/
def replaceOrAppend : List Override → Override → List Override
  | [], n => [n]
  | o :: rest, n =>
    if o.stagedOverrideId == n.stagedOverrideId then n :: rest
    else o :: replaceOrAppend rest n

/- ------------------------------------------------------------------
Card state: `stagedCards` is a JS object keyed by row key, modelled as
an association list keeping JS key-insertion order.
------------------------------------------------------------------ -/

/-- The four/five date fields a card carries alongside its overrides. -/
structure Dates where
  due_at : Option String := none
  unlock_at : Option String := none
  lock_at : Option String := none
  reply_to_topic_due_at : Option String := none
  required_replies_due_at : Option String := none
deriving DecidableEq, Repr

/-- One entry of the `stagedCards` object: a card's overrides, its dates
and its display index (`undefined` for cards that never got one). -/
structure StagedCard where
  overrides : List Override := []
  dates : Dates := {}
  index : Option Nat := none
  draft : Bool := false
  id : Option String := none
deriving DecidableEq, Repr

/-- The `stagedCards` JS object, keyed by row key in insertion order. -/
abbrev StagedCards := List (String × StagedCard)

/-- Modelled from the spec: `getAllOverridesFromCards` (imported from
`../util/differentiatedModulesUtil`, not under src/) flattens the card
map into the flat list of current overrides, card by card. -/
def getAllOverridesFromCards (cards : StagedCards) : List Override :=
  (cards.map (fun entry => entry.2.overrides)).flatten

/-- The filter applied to `getAllOverridesFromCards` at lines 160-167:
keep only overrides that actually target an assignee (truthy
`course_section_id`, `noop_id`, `course_id` or `group_id`, or a present
`student_ids` array — in JS an array is truthy even when empty). -/
def filterAssigned (overrides : List Override) : List Override :=
  overrides.filter (fun o =>
    truthyS o.course_section_id || o.student_ids.isSome || truthyS o.noop_id ||
      truthyS o.course_id || truthyS o.group_id)

/- ------------------------------------------------------------------
Module-assignee extraction and the unassign-override synthesis
(AssignToContent.jsx lines 143-154 and 159-201).
------------------------------------------------------------------ -/

/-- Lines 143-154: map each module-tagged override to `section-<id>`,
the list `student-<id>`s, or `undefined` (modelled `none`) when the
override has neither a truthy `course_section_id` nor a `student_ids`
array, then `.flat()`. -/
def extractModuleAssignees (overrides : List Override) : List (Option String) :=
  ((overrides.filter (fun o => truthyS o.context_module_id)).map (fun mo =>
    if truthyS mo.course_section_id then
      [some ("section-" ++ mo.course_section_id.getD "")]
    else if mo.student_ids.isSome then
      (mo.student_ids.getD []).map (fun sid => some ("student-" ++ sid))
    else
      [(none : Option String)])).flatten

/-- Lines 169-171: module assignees no longer present in the disabled
set.  JS `includes` compares with SameValueZero, so an `undefined`
entry is never found in the (string) disabled list and is kept. -/
def deletedModuleAssignees (moduleAssignees : List (Option String))
    (disabledOptionIds : List String) : List (Option String) :=
  moduleAssignees.filter (fun a =>
    match a with
    | some s => !(disabledOptionIds.contains s)
    | none => true)

/-- The message of the TypeError raised when a string method is applied
to an `undefined` module-assignee entry. -/
def undefinedAssigneeError : String :=
  "TypeError: assignee is undefined"

/-- Lines 173-194: when module assignees were deleted, batch all deleted
student assignees into one `unassign_item` override and emit one
`unassign_item` override per deleted section assignee.  The JS filter
applies `assignee.includes(..)` to every entry, so an `undefined` entry
makes the step throw; this is modelled by the `Except` error branch. -/
def synthesizeUnassigns (newOverrides : List Override)
    (deleted : List (Option String)) : Except String (List Override) :=
  if deleted.length > 0 then
    if deleted.any (fun a => a.isNone) then
      .error undefinedAssigneeError
    else
      let ds := deleted.filterMap (fun a => a)
      let studentIds := (ds.filter (fun a => jsIncludes a "student")).map
        (fun a => (jsSplitSecond a).getD "")
      let withStudents :=
        if studentIds.length > 0 then
          newOverrides ++
            [{id := none, student_ids := some studentIds, unassign_item := true}]
        else newOverrides
      let sectionIds := (ds.filter (fun a => jsIncludes a "section")).map
        (fun a => (jsSplitSecond a).getD "")
      .ok (withStudents ++ sectionIds.map (fun s =>
        {id := none, course_section_id := some s, unassign_item := true}))
  else
    .ok newOverrides

/-- Modelled from the spec: `processModuleOverridesV2` (imported from
`../util/differentiatedModulesUtil`, not under src/).  Per the spec,
an override that still matches an entry of the initial module-override
list by identity is left as the inherited module override; every other
override (in particular a synthesized unassign override, which has no
`stagedOverrideId`) passes through unchanged, superseding the implicit
module assignment. -/
def processModuleOverridesV2 (current initialModule : List Override) : List Override :=
  current.map (fun o =>
    match initialModule.find? (fun m =>
        m.stagedOverrideId.isSome && m.stagedOverrideId == o.stagedOverrideId) with
    | some m => m
    | none => o)

/-- The recomputation effect at lines 159-201: flatten the cards, keep
assigned overrides, synthesize unassign overrides for deleted module
assignees, and reconcile against the initial module overrides
(`resetOverrides` writes the reconciled values back into the emitted
list, so the emitted list is the reconciled one). -/
def recomputeEmitted (cards : StagedCards) (moduleAssignees : List (Option String))
    (disabledOptionIds : List String) (initialModuleOverrides : List Override) :
    Except String (List Override) :=
  let newOverrides := filterAssigned (getAllOverridesFromCards cards)
  let deleted := deletedModuleAssignees moduleAssignees disabledOptionIds
  (synthesizeUnassigns newOverrides deleted).map
    (fun l => processModuleOverridesV2 l initialModuleOverrides)

/- ------------------------------------------------------------------
Paginated fetch and merge (ItemAssignToTrayContent, lines 799-831):
follow `link.next.url` sequentially, capped at MAX_PAGES = 10, then
merge the page bodies with a reduce that concatenates the list-valued
fields and lets each later page's scalars overwrite the earlier ones.
------------------------------------------------------------------ -/

/-- The body (`response.json`) of one page of the due-date details
endpoint. -/
structure DateDetails where
  overrides : List Override := []
  blueprint_date_locks : List String := []
  id : Option String := none
  due_at : Option String := none
  unlock_at : Option String := none
  lock_at : Option String := none
  visible_to_everyone : Bool := false
  group_category_id : Option String := none
deriving DecidableEq, Repr

/-- One HTTP response: the JSON body plus the pagination link
(`response.link?.next?.url`), with URLs abstracted to `Nat`. -/
structure FetchPage where
  json : DateDetails := {}
  next : Option Nat := none
deriving Repr

def MAX_PAGES : Nat := 10

/-- The `while (url && pageCount < MAX_PAGES)` loop: `fuel` is
`MAX_PAGES - pageCount`.  Returns the collected `allResponses`. -/
def fetchPagesAux (server : Nat → FetchPage) : Nat → Option Nat → List DateDetails
  | 0, _ => []
  | _, none => []
  | fuel + 1, some u =>
    let r := server u
    r.json :: fetchPagesAux server fuel r.next

/-- All page bodies collected by `fetchAllPages` starting from the item
URL `u0`. -/
def fetchPages (server : Nat → FetchPage) (u0 : Nat) : List DateDetails :=
  fetchPagesAux server MAX_PAGES (some u0)

/-- One step of the merging reduce: spread the current page (so scalar
fields take its values) and concatenate `overrides` and
`blueprint_date_locks` onto the accumulator's. -/
def mergePage (acc r : DateDetails) : DateDetails :=
  {r with overrides := acc.overrides ++ r.overrides,
          blueprint_date_locks := acc.blueprint_date_locks ++ r.blueprint_date_locks}

/-- The merging reduce (lines 821-831), starting from the empty `{}`. -/
def combineResponses (rs : List DateDetails) : DateDetails :=
  rs.foldl mergePage {}

/- ------------------------------------------------------------------
Fetch failure handling (lines 799-948): any page request throwing makes
the catch branch show a generic flash error and dismiss the tray, and
the finally branch always sets the fetch-complete flags.
------------------------------------------------------------------ -/

/-- Observable outcome of one `fetchAllPages` run: the URLs requested,
the bodies received, and the flags the catch/finally branches set. -/
structure FetchOutcome where
  requests : List Nat := []
  responses : List DateDetails := []
  flashErrorShown : Bool := false
  dismissed : Bool := false
  hasFetched : Bool := false
  fetchInFlight : Bool := false
  initialLoadDone : Bool := false
deriving Repr

/-- The paginated loop over a fallible server: returns the requested
URLs, the received bodies, and whether a request failed (which aborts
the loop at once — no retry, no further requests). -/
def runFetchAux (server : Nat → Except Unit FetchPage) :
    Nat → Option Nat → List Nat × List DateDetails × Bool
  | 0, _ => ([], [], false)
  | _, none => ([], [], false)
  | fuel + 1, some u =>
    match server u with
    | .error _ => ([u], [], true)
    | .ok r =>
      let rest := runFetchAux server fuel r.next
      (u :: rest.1, r.json :: rest.2.1, rest.2.2)

/-- `fetchAllPages` as a whole: `setFetchInFlight(true)` at entry, the
loop, the catch branch (`showFlashError()(); handleDismiss()`) on a
failure, and the finally branch (`setHasFetched(true);
setFetchInFlight(false); initialLoadRef.current = true`) on both paths. -/
def runFetch (server : Nat → Except Unit FetchPage) (u0 : Nat) : FetchOutcome :=
  let r := runFetchAux server MAX_PAGES (some u0)
  { requests := r.1
    responses := r.2.1
    flashErrorShown := r.2.2
    dismissed := r.2.2
    hasFetched := true
    fetchInFlight := false
    initialLoadDone := true }

/- ------------------------------------------------------------------
Initial card derivation from the merged response
(ItemAssignToTrayContent, lines 833-939).
------------------------------------------------------------------ -/

/-- A card derived by `fetchAllPages` (the `ItemAssignToCardSpec`
fields the derivation sets; the generated `uid` key is left out). -/
structure DerivedCard where
  isValid : Bool := true
  hasAssignees : Bool := true
  due_at : Option String := none
  reply_to_topic_due_at : Option String := none
  required_replies_due_at : Option String := none
  original_due_at : Option String := none
  unlock_at : Option String := none
  lock_at : Option String := none
  selectedAssigneeIds : List String := []
  overrideId : Option String := none
  contextModuleId : Option String := none
  contextModuleName : Option String := none
deriving DecidableEq, Repr

/-- Modelled from the spec: `getOverriddenAssignees` (imported from
`../../utils/assignToHelper`, not under src/) returns the student ids
and the section ids of module-inherited assignees that are superseded
by an explicit (non-module) override targeting the same assignee. -/
def getOverriddenAssignees (ovs : List Override) : List String × List String :=
  let moduleOvs := ovs.filter (fun o => truthyS o.context_module_id)
  let explicitOvs := ovs.filter (fun o => !(truthyS o.context_module_id))
  let students := (moduleOvs.map (fun m =>
    (m.student_ids.getD []).filter (fun i =>
      explicitOvs.any (fun e => (e.student_ids.getD []).contains i)))).flatten
  let sections := (moduleOvs.filterMap (fun m => m.course_section_id)).filter
    (fun c => explicitOvs.any (fun e => e.course_section_id == some c))
  (students, sections)

/-- Lines 845-863: the implicit "everyone" card, added exactly when the
item is visible to everyone (`!onlyOverrides`) and no override has a
truthy `course_id`.  `getEveryoneOption` is called with an empty card
list at this point, so its id is the plain `everyone` sentinel. -/
def everyoneCardOf (resp : DateDetails) : List DerivedCard :=
  if resp.visible_to_everyone && !(resp.overrides.any (fun o => truthyS o.course_id)) then
    [{ due_at := resp.due_at
       original_due_at := resp.due_at
       unlock_at := resp.unlock_at
       lock_at := resp.lock_at
       selectedAssigneeIds := ["everyone"]
       overrideId := resp.id }]
  else []

/-- Lines 864-930 for a single override: `none` when the override is an
unassign marker or its card is removed (module students all superseded,
an empty `student_ids` array, or a module section superseded by an
explicit override on the same section). -/
def overrideCardFor (overriddenTargets : List String × List String) (o : Override) :
    Option DerivedCard :=
  if o.unassign_item then none
  else
    let filteredStudents :=
      if truthyS o.context_module_id && o.student_ids.isSome then
        some ((o.student_ids.getD []).filter
          (fun i => !(overriddenTargets.1.contains i)))
      else o.student_ids
    let removeCard₁ :=
      truthyS o.context_module_id && o.student_ids.isSome &&
        decide ((o.student_ids.getD []).length > 0) &&
        decide ((filteredStudents.getD []).length = 0)
    let defaultOptions :=
      ((filteredStudents.getD []).map (fun sid => "student-" ++ sid)) ++
        (if truthyS o.noop_id then ["mastery_paths"] else []) ++
        (if truthyS o.course_section_id then
          ["section-" ++ o.course_section_id.getD ""] else []) ++
        (if truthyS o.course_id then ["everyone"] else []) ++
        (if truthyS o.group_id then ["group-" ++ o.group_id.getD ""] else [])
    let removeCard := removeCard₁ || o.student_ids == some []
    if removeCard ||
        (truthyS o.context_module_id && truthyS o.course_section_id &&
          overriddenTargets.2.contains (o.course_section_id.getD "")) then
      none
    else
      some { due_at := o.due_at
             original_due_at := o.due_at
             unlock_at := o.unlock_at
             lock_at := o.lock_at
             selectedAssigneeIds := defaultOptions
             overrideId := o.id
             contextModuleId := o.context_module_id
             contextModuleName := o.context_module_name }

/-- The full initial-card derivation from the merged response: the
implicit everyone card (when applicable) followed by one card per
surviving override. -/
def deriveCards (resp : DateDetails) : List DerivedCard :=
  everyoneCardOf resp ++
    resp.overrides.filterMap (overrideCardFor (getOverriddenAssignees resp.overrides))

/- ------------------------------------------------------------------
The card projection (AssignToContent.jsx, `cards` useMemo at lines
203-269): per row key, collect the assignee-option ids of the card's
overrides, dedup them, validate the dates, and accumulate every pushed
option id into the disabled-option list.
------------------------------------------------------------------ -/

/-- JS `[...new Set(l)]`: dedup keeping the first occurrence order. -/
def jsSetDedup (l : List String) : List String :=
  l.foldl (fun acc x => if acc.contains x then acc else acc ++ [x]) []

/-- Lines 211-234 for one override: a `noop_id === '1'` override maps to
`mastery_paths`, a `course_section_id === defaultSectionId` or truthy
`course_id` override maps to the everyone option, and otherwise the
override contributes its `student-`/`section-`/`group-` tags. -/
def overrideCardOptions (defaultSectionId : Option String) (everyoneKey : String)
    (o : Override) : List String :=
  if o.noop_id == some "1" then ["mastery_paths"]
  else if o.course_section_id == defaultSectionId then [everyoneKey]
  else if truthyS o.course_id then [everyoneKey]
  else
    ((o.student_ids.getD []).map (fun sid => "student-" ++ sid)) ++
      (if truthyS o.course_section_id then
        ["section-" ++ o.course_section_id.getD ""] else []) ++
      (if truthyS o.group_id then ["group-" ++ o.group_id.getD ""] else [])

/-- One override's turn of the per-card loop: `defaultOptions` (the
first component) grows by the override's options, and the branch then
pushes the WHOLE accumulated `defaultOptions` onto `selectedOptionIds`
(the second component). -/
def cardOptionsStep (acc : List String × List String) (os : List String) :
    List String × List String :=
  let d := acc.1 ++ os
  (d, acc.2 ++ d)

/-- The per-card loop over the card's overrides: returns the final
`defaultOptions` and the card's contribution to `selectedOptionIds`. -/
def cardOptionsAccum (optsPerOverride : List (List String)) : List String × List String :=
  optsPerOverride.foldl cardOptionsStep ([], [])

/-- Modelled from the spec: `areCardsEqual` (imported from
`../util/differentiatedModulesUtil`, not under src/) deep-compares a
card against its initial snapshot to decide the dirty highlight. -/
def areCardsEqual (preSaved : Option StagedCard) (card : StagedCard) : Bool :=
  preSaved == some card

/-- The rendered card record built at lines 246-262. -/
structure ProjectedCard where
  key : String
  isValid : Bool
  highlightCard : Bool
  hasAssignees : Bool
  due_at : Option String := none
  unlock_at : Option String := none
  lock_at : Option String := none
  reply_to_topic_due_at : Option String := none
  required_replies_due_at : Option String := none
  selectedAssigneeIds : List String := []
  overrideId : Option String := none
  index : Option Nat := none
  contextModuleId : Option String := none
  contextModuleName : Option String := none
deriving DecidableEq, Repr

/-- Lines 206-262 for one card.  `validate` abstracts
`dateValidator.validateDatetimes` (from `@canvas/grading/DateValidator`,
not under src/; per the spec it returns the date errors of the card's
date set).  Returns the projected card and the card's contribution to
`selectedOptionIds`. -/
def projectCard (validate : Dates → List String) (defaultSectionId : Option String)
    (everyoneKey : String) (initialState : StagedCards) (cardId : String)
    (card : StagedCard) : ProjectedCard × List String :=
  let optsPer := card.overrides.map (overrideCardOptions defaultSectionId everyoneKey)
  let acc := cardOptionsAccum optsPer
  let uniqueIds := jsSetDedup acc.1
  let finalIndex :=
    if card.overrides.any (fun o =>
        !(o.noop_id == some "1") && o.course_section_id == defaultSectionId) then
      some 0
    else card.index
  let isPersisted := areCardsEqual (initialState.lookup cardId) card
  let dateErrors := validate card.dates
  ({ key := cardId
     isValid := decide (uniqueIds.length > 0) && dateErrors.isEmpty
     highlightCard := !isPersisted
     hasAssignees := decide (uniqueIds.length > 0)
     due_at := card.dates.due_at
     unlock_at := card.dates.unlock_at
     lock_at := card.dates.lock_at
     reply_to_topic_due_at := card.dates.reply_to_topic_due_at
     required_replies_due_at := card.dates.required_replies_due_at
     selectedAssigneeIds := uniqueIds
     overrideId := card.id
     index := finalIndex
     contextModuleId := (card.overrides.head?).bind (fun o => o.context_module_id)
     contextModuleName := (card.overrides.head?).bind (fun o => o.context_module_name) },
   acc.2)

/-- The whole `cards` useMemo (before the final index sort, which no
claim concerns): the projected cards in row-key order together with the
accumulated `selectedOptionIds`, which the memo stores as the new
disabled-option list via `setDisabledOptionIds`. -/
def cardsProjection (validate : Dates → List String) (defaultSectionId : Option String)
    (everyoneKey : String) (initialState : StagedCards) (cards : StagedCards) :
    List ProjectedCard × List String :=
  let results := cards.map (fun e => projectCard validate defaultSectionId everyoneKey
    initialState e.1 e.2)
  (results.map (fun r => r.1), (results.map (fun r => r.2)).flatten)

/- ------------------------------------------------------------------
Assignee-change plumbing (handleCustomAssigneesChange, lines 1009-1060,
and handleChange, lines 312-323).
------------------------------------------------------------------ -/

/-- An entry of the assignee dropdown. -/
structure AssigneeOption where
  id : String
  value : String := ""
  groupCategoryId : Option String := none
deriving DecidableEq, Repr

/-- The `exportedOverride` record handleCustomAssigneesChange builds for
the owning form. -/
structure ExportedOverride where
  id : Option String := none
  name : Option String := none
  short_name : Option String := none
  course_section_id : Option String := none
  course_id : Option String := none
  group_id : Option String := none
  group_category_id : Option String := none
  noop_id : Option String := none
deriving DecidableEq, Repr

/-- Lines 1011-1013: the new selection is the first assignee whose id is
not already in the disabled-option list; `none` models `undefined`. -/
def firstNonDisabledOption (assignees : List AssigneeOption) (disabled : List String) :
    Option AssigneeOption :=
  (assignees.filter (fun a => !(disabled.contains a.id))).head?

/-- `handleCustomAssigneesChange` (lines 1014-1039): the parsed card
handed to `handleChange`.  `none` models the empty `{}` parsed card
produced when every offered assignee is already disabled, in which case
`handleChange` (line 315, `Object.keys(newAssignee).length > 0`) skips
`handleAssigneeAddition` — the claim is ignored. -/
def parsedCardOf (assignees : List AssigneeOption) (disabled : List String)
    (everyoneId : String) (defaultSectionId : Option String)
    (hasModuleOverrides : Bool) : Option ExportedOverride :=
  match firstNonDisabledOption assignees disabled with
  | none => none
  | some a =>
    let idData := (splitDash a.id.toList).map (fun l => String.mk l)
    let isEveryoneOption := a.id == everyoneId
    let base : ExportedOverride :=
      { id := if isEveryoneOption then defaultSectionId else idData.get? 1
        name := some a.value }
    if isEveryoneOption then
      if hasModuleOverrides then some {base with course_id := some "everyone"}
      else some {base with course_section_id := defaultSectionId}
    else if truthyS base.id && idData.headD "" == "section" then
      some {base with course_section_id := idData.get? 1}
    else if truthyS base.id && idData.headD "" == "student" then
      some {base with short_name := some a.value}
    else if truthyS base.id && idData.headD "" == "group" then
      some {base with group_id := idData.get? 1, group_category_id := a.groupCategoryId}
    else if idData.headD "" == "mastery_paths" then
      some {base with noop_id := some "1"}
    else some base

/- ------------------------------------------------------------------
Assignee deletion (handleAssigneeDeletion, lines 391-427).
------------------------------------------------------------------ -/

/-- Lines 408-414: delete every assignee-identifying property from the
placeholder override. -/
def stripAssigneeFields (o : Override) : Override :=
  {o with student_ids := none, students := none, course_section_id := none,
          group_id := none, noop_id := none, course_id := none}

/-- One assignment `uniqueMap[override.stagedOverrideId] = override` on
the JS accumulator object: overwrite the value of an existing key in
place, or append a new key at the end. -/
def updateAssoc : List (Option String × Override) → Override →
    List (Option String × Override)
  | [], o => [(o.stagedOverrideId, o)]
  | p :: rest, o =>
    if p.1 == o.stagedOverrideId then (p.1, o) :: rest
    else p :: updateAssoc rest o

/-- Lines 418-424: the JS reduce into an object keyed by
`stagedOverrideId` followed by `Object.values`: first-occurrence key
order, latest occurrence per key wins (all `undefined` ids collapse
onto one key, as in JS). -/
def dedupLatestByStagedId (l : List Override) : List Override :=
  (l.foldl updateAssoc []).map (fun p => p.2)

/-- `handleAssigneeDeletion`: `remove` abstracts
`CardActions.handleAssigneeRemove` (from
`../util/differentiatedModulesCardActions`, not under src/; per the
spec it strips the removed target from the card's overrides).  When the
card's overrides come back empty, its first old override — stripped of
every assignee field — is kept as the placeholder, and the combined
list is deduped by staged id. -/
def handleAssigneeDeletion (remove : String → List Override → List Override)
    (cards : StagedCards) (cardId : String) (tokenToRemove : String) : List Override :=
  let targetOvs := ((cards.lookup cardId).map (fun c => c.overrides)).getD []
  let nonTargeted := (getAllOverridesFromCards cards).filter
    (fun o => !(o.rowKey == some cardId))
  let remaining := remove tokenToRemove targetOvs
  let remaining₂ :=
    if remaining.length = 0 then
      match targetOvs.head? with
      | some first => [stripAssigneeFields first]
      | none => []
    else remaining
  dedupLatestByStagedId (remaining₂ ++ nonTargeted)

/- ------------------------------------------------------------------
Date updates (handleDatesUpdate, lines 325-352, and updateCard, lines
297-305).
------------------------------------------------------------------ -/

/-- The date field named by the `dateType` argument. -/
inductive DateField
  | due_at
  | unlock_at
  | lock_at
  | reply_to_topic_due_at
  | required_replies_due_at
deriving DecidableEq, Repr

def Dates.getField (d : Dates) : DateField → Option String
  | .due_at => d.due_at
  | .unlock_at => d.unlock_at
  | .lock_at => d.lock_at
  | .reply_to_topic_due_at => d.reply_to_topic_due_at
  | .required_replies_due_at => d.required_replies_due_at

def Dates.setField (d : Dates) (f : DateField) (v : Option String) : Dates :=
  match f with
  | .due_at => {d with due_at := v}
  | .unlock_at => {d with unlock_at := v}
  | .lock_at => {d with lock_at := v}
  | .reply_to_topic_due_at => {d with reply_to_topic_due_at := v}
  | .required_replies_due_at => {d with required_replies_due_at := v}

def Override.getDateField (o : Override) : DateField → Option String
  | .due_at => o.due_at
  | .unlock_at => o.unlock_at
  | .lock_at => o.lock_at
  | .reply_to_topic_due_at => o.reply_to_topic_due_at
  | .required_replies_due_at => o.required_replies_due_at

/-- `override[dateType] = v` — sets only the date field. -/
def Override.setDateField (o : Override) (f : DateField) (v : Option String) : Override :=
  match f with
  | .due_at => {o with due_at := v}
  | .unlock_at => {o with unlock_at := v}
  | .lock_at => {o with lock_at := v}
  | .reply_to_topic_due_at => {o with reply_to_topic_due_at := v}
  | .required_replies_due_at => {o with required_replies_due_at := v}

def Override.getOverriddenFlag (o : Override) : DateField → Bool
  | .due_at => o.due_at_overridden
  | .unlock_at => o.unlock_at_overridden
  | .lock_at => o.lock_at_overridden
  | .reply_to_topic_due_at => o.reply_to_topic_due_at_overridden
  | .required_replies_due_at => o.required_replies_due_at_overridden

/-- `{...override, [dateType]: date, [dateType+'_overridden']: !!date}` -/
def Override.setDateAndFlag (o : Override) (f : DateField) (v : Option String)
    (flag : Bool) : Override :=
  match f with
  | .due_at => {o with due_at := v, due_at_overridden := flag}
  | .unlock_at => {o with unlock_at := v, unlock_at_overridden := flag}
  | .lock_at => {o with lock_at := v, lock_at_overridden := flag}
  | .reply_to_topic_due_at =>
    {o with reply_to_topic_due_at := v, reply_to_topic_due_at_overridden := flag}
  | .required_replies_due_at =>
    {o with required_replies_due_at := v, required_replies_due_at_overridden := flag}

/-- JS object update `_.extend({...cards}, {[cardId]: v})`: overwrite in
place when the key exists, append a new key otherwise. -/
def jsAssocSet : StagedCards → String → StagedCard → StagedCards
  | [], k, v => [(k, v)]
  | e :: rest, k, v =>
    if e.1 == k then (k, v) :: rest
    else e :: jsAssocSet rest k v

/-- `updateCard` (lines 297-305), on the `handleDatesUpdate` path where
`cardDates` is always supplied: the row's entry is replaced by a record
of the new overrides, the new dates and the current index. -/
def updateCard (cards : StagedCards) (cardId : String) (newOverrides : List Override)
    (newDates : Dates) : StagedCards :=
  let currentIndex := ((cards.lookup cardId).map (fun c => c.index)).getD none
  jsAssocSet cards cardId
    {overrides := newOverrides, dates := newDates, index := currentIndex}

/-- `handleDatesUpdate` (lines 325-352): the cleared empty string is
normalized to `null` (`none`) for the card's overrides and dates, while
the flat staged-override entries of the same row receive the RAW
`newDate` value. -/
def handleDatesUpdate (cards : StagedCards) (stagedOverrides : List Override)
    (cardId : String) (dateType : DateField) (newDate : String) :
    StagedCards × List Override :=
  let card := (cards.lookup cardId).getD {}
  let date := if newDate == "" then none else some newDate
  let newOverrides := card.overrides.map
    (fun o => o.setDateAndFlag dateType date date.isSome)
  let newDates := card.dates.setField dateType date
  let cards₂ := updateCard cards cardId newOverrides newDates
  let staged₂ := stagedOverrides.map (fun o =>
    if (o.rowKey.getD "undefined") == cardId then
      o.setDateField dateType (some newDate)
    else o)
  (cards₂, staged₂)

/- ------------------------------------------------------------------
Concrete inputs used in the theorems below.
------------------------------------------------------------------ -/

/-- A module-inherited section override: `{course_section_id: "7",
context_module_id: "3"}` (tagged, as every staged override is). -/
def mo7 : Override :=
  {course_section_id := some "7", context_module_id := some "3",
   stagedOverrideId := some "a"}

/-- The unassign override the recomputation synthesizes for a deleted
`section-7` module assignee. -/
def secUnassign7 : Override :=
  {id := none, course_section_id := some "7", unassign_item := true}

/-- A group-targeted module override: `{group_id: "5",
context_module_id: "3"}` — neither `course_section_id` nor
`student_ids`. -/
def gmo : Override :=
  {group_id := some "5", context_module_id := some "3"}

/-- A page carrying 100 overrides and the given next link. -/
def pg100 (nxt : Option Nat) : FetchPage :=
  {json := {overrides := List.replicate 100 {}}, next := nxt}

/-- A server with exactly 3 pages of 100 overrides each. -/
def srv3 : Nat → FetchPage := fun u =>
  if u = 0 then pg100 (some 1) else if u = 1 then pg100 (some 2) else pg100 none

/-- A server whose every page carries a next link (an endless chain). -/
def srvInf : Nat → FetchPage := fun u =>
  {json := {id := some (toString u)}, next := some (u + 1)}

/-- A fallible server that fails on the third page request. -/
def srvFail : Nat → Except Unit FetchPage := fun u =>
  if u = 2 then .error () else .ok {json := {}, next := some (u + 1)}

/-- A merged response: visible to everyone, one section-42 override, no
course-wide override. -/
def resp42 : DateDetails :=
  {overrides := [{course_section_id := some "42", id := some "o1"}],
   visible_to_everyone := true, id := some "item1", due_at := some "d"}

/-- `resp42` with an extra unassign-marker override appended. -/
def resp42u : DateDetails :=
  {resp42 with overrides :=
    resp42.overrides ++ [{course_section_id := some "9", unassign_item := true}]}

/-- A response whose module section-7 override is superseded by an
explicit override on the same section. -/
def respSup : DateDetails :=
  {overrides := [{course_section_id := some "7", context_module_id := some "3"},
                 {course_section_id := some "7", id := some "e1"}],
   visible_to_everyone := false}

/-- A `uid()` model that is injective: `n` repetitions of `u` after one. -/
def genU : Nat → String := fun n => String.mk (List.replicate (n + 1) (Char.ofNat 117))

/-- Two input overrides arriving already tagged with the SAME staged id. -/
def dupTaggedInput : List Override :=
  [{stagedOverrideId := some "a"}, {stagedOverrideId := some "a"}]

/-- The card used by the concrete instantiation of C10. -/
def c10card : StagedCard :=
  {overrides := [{rowKey := some "0", due_at := some "d",
                  stagedOverrideId := some "s1", due_at_overridden := true}],
   dates := {due_at := some "d"}}

/-- An input list for the amended C3: one untagged override and one
already tagged with an id no `uid()` call returns. -/
def c3wInput : List Override :=
  [({} : Override), {stagedOverrideId := some "a"}]

/-- A staged list holding an override with staged id `b`. -/
def c3wStaged : List Override :=
  [{stagedOverrideId := some "b", course_section_id := some "1"}]

/-- A new override carrying the already-present staged id `b`. -/
def c3wNew : Override :=
  {stagedOverrideId := some "b", course_section_id := some "2"}

/-- A `handleAssigneeRemove` outcome with no override left (the removed
token was the card's last assignee). -/
def remNoneFn : String → List Override → List Override := fun _ _ => []

/-- The single override of the card whose last assignee gets removed. -/
def c5first : Override :=
  {student_ids := some ["1"], rowKey := some "0", stagedOverrideId := some "s1",
   due_at := some "D"}

/-- An override belonging to another card. -/
def c5other : Override :=
  {course_section_id := some "3", rowKey := some "1", stagedOverrideId := some "s2"}

/-- A two-card staged state for the concrete C5 instantiation. -/
def c5cards : StagedCards :=
  [("0", {overrides := [c5first], dates := {due_at := some "D"}}),
   ("1", {overrides := [c5other]})]

/-- An override on card 0 whose staged id collides with card 1's. -/
def c5dupA : Override :=
  {student_ids := some ["1"], rowKey := some "0", stagedOverrideId := some "s1",
   due_at := some "D"}

/-- An override on card 1 sharing card 0's staged id `s1`. -/
def c5dupB : Override :=
  {course_section_id := some "3", rowKey := some "1", stagedOverrideId := some "s1"}

/-- A staged state whose two cards hold overrides with the SAME staged
id, so the deletion handler's dedup step actually prunes. -/
def c5dupCards : StagedCards :=
  [("0", {overrides := [c5dupA]}), ("1", {overrides := [c5dupB]})]

end AssignTo

deriving instance DecidableEq for Except

namespace AssignTo

/-- The paginated loop never collects more pages than its fuel. -/
theorem fetchPagesAux_length_le (server : Nat → FetchPage) :
    ∀ (fuel : Nat) (url : Option Nat), (fetchPagesAux server fuel url).length ≤ fuel := by
  intro fuel
  induction fuel with
  | zero => intro url; cases url <;> simp [fetchPagesAux]
  | succ n ih =>
    intro url
    cases url with
    | none => simp [fetchPagesAux]
    | some u =>
      simp only [fetchPagesAux, List.length_cons]
      exact Nat.succ_le_succ (ih _)

/-- Folding the page merge concatenates the overrides lists in order. -/
theorem foldl_mergePage_overrides :
    ∀ (rs : List DateDetails) (acc : DateDetails),
      (rs.foldl mergePage acc).overrides =
        acc.overrides ++ (rs.map (fun r => r.overrides)).flatten := by
  intro rs
  induction rs with
  | nil => intro acc; simp
  | cons r rest ih =>
    intro acc
    simp only [List.foldl_cons, List.map_cons, List.flatten_cons]
    rw [ih]
    simp [mergePage, List.append_assoc]

/-- Folding the page merge concatenates the blueprint locks in order. -/
theorem foldl_mergePage_locks :
    ∀ (rs : List DateDetails) (acc : DateDetails),
      (rs.foldl mergePage acc).blueprint_date_locks =
        acc.blueprint_date_locks ++ (rs.map (fun r => r.blueprint_date_locks)).flatten := by
  intro rs
  induction rs with
  | nil => intro acc; simp
  | cons r rest ih =>
    intro acc
    simp only [List.foldl_cons, List.map_cons, List.flatten_cons]
    rw [ih]
    simp [mergePage, List.append_assoc]

set_option maxRecDepth 40000 in
/-- Claim C2: the paginated fetch follows next-page links up to a hard
cap of 10 pages; `overrides` and `blueprint_date_locks` merge by
concatenation across pages in page order; scalar fields take the last
page's value; a link remaining once the cap is reached is silently not
followed; 3 pages of 100 overrides each merge into 300 overrides. -/
theorem c2_paginated_fetch_merge :
    (∀ (server : Nat → FetchPage) (u0 : Nat),
      (fetchPages server u0).length ≤ MAX_PAGES) ∧
    (∀ rs : List DateDetails,
      (combineResponses rs).overrides = (rs.map (fun r => r.overrides)).flatten ∧
      (combineResponses rs).blueprint_date_locks =
        (rs.map (fun r => r.blueprint_date_locks)).flatten) ∧
    (∀ (rs : List DateDetails) (r : DateDetails), rs.getLast? = some r →
      (combineResponses rs).id = r.id ∧
      (combineResponses rs).due_at = r.due_at ∧
      (combineResponses rs).unlock_at = r.unlock_at ∧
      (combineResponses rs).lock_at = r.lock_at ∧
      (combineResponses rs).visible_to_everyone = r.visible_to_everyone ∧
      (combineResponses rs).group_category_id = r.group_category_id) ∧
    (combineResponses (fetchPages srv3 0)).overrides.length = 300 ∧
    (fetchPages srvInf 0).length = MAX_PAGES := by
  refine ⟨fun server u0 => fetchPagesAux_length_le server MAX_PAGES (some u0),
    fun rs => ⟨?_, ?_⟩, ?_, ?_, ?_⟩
  · rw [combineResponses, foldl_mergePage_overrides]; rfl
  · rw [combineResponses, foldl_mergePage_locks]; rfl
  · intro rs r h
    obtain ⟨l, rfl⟩ := List.getLast?_eq_some_iff.mp h
    rw [combineResponses, List.foldl_append]
    exact ⟨rfl, rfl, rfl, rfl, rfl, rfl⟩
  · decide
  · decide

/-- A concrete application of the last-page scalar rule of
`c2_paginated_fetch_merge`: the merged id of a two-page fetch is the
second page's id. -/
theorem c2_paginated_fetch_merge_witness :
    (combineResponses
      [({id := some "p1"} : DateDetails), ({id := some "p2"} : DateDetails)]).id =
      some "p2" :=
  (c2_paginated_fetch_merge.2.2.1
    [({id := some "p1"} : DateDetails), ({id := some "p2"} : DateDetails)]
    {id := some "p2"} (by decide)).1

/-- The failing request of the paginated loop, when there is one, is
always the last request made — the loop aborts with no retry — and on
an all-success run every request succeeded. -/
theorem runFetchAux_spec (server : Nat → Except Unit FetchPage) :
    ∀ (fuel : Nat) (url : Option Nat),
      ((runFetchAux server fuel url).2.2 = true →
        ∃ l u, (runFetchAux server fuel url).1 = l ++ [u] ∧
          (server u).isOk = false ∧ ∀ v ∈ l, (server v).isOk = true) ∧
      ((runFetchAux server fuel url).2.2 = false →
        ∀ v ∈ (runFetchAux server fuel url).1, (server v).isOk = true) := by
  intro fuel
  induction fuel with
  | zero => intro url; cases url <;> simp [runFetchAux]
  | succ n ih =>
    intro url
    cases url with
    | none => simp [runFetchAux]
    | some u =>
      cases hs : server u with
      | error e =>
        refine ⟨fun _ => ⟨[], u, ?_, ?_, by simp⟩, fun hfalse => ?_⟩
        · simp [runFetchAux, hs]
        · simp [hs, Except.isOk, Except.toBool]
        · simp [runFetchAux, hs] at hfalse
      | ok pg =>
        have hok : (server u).isOk = true := by simp [hs, Except.isOk, Except.toBool]
        refine ⟨fun htrue => ?_, fun hfalse => ?_⟩
        · have h2 : (runFetchAux server n pg.next).2.2 = true := by
            simpa [runFetchAux, hs] using htrue
          obtain ⟨l, w, hl, hw, hall⟩ := (ih pg.next).1 h2
          refine ⟨u :: l, w, ?_, hw, ?_⟩
          · simp [runFetchAux, hs, hl]
          · intro v hv
            rcases List.mem_cons.mp hv with hv | hv
            · exact hv ▸ hok
            · exact hall v hv
        · have h2 : (runFetchAux server n pg.next).2.2 = false := by
            simpa [runFetchAux, hs] using hfalse
          intro v hv
          have hv2 : v ∈ (u :: (runFetchAux server n pg.next).1) := by
            simpa [runFetchAux, hs] using hv
          rcases List.mem_cons.mp hv2 with hv2 | hv2
          · exact hv2 ▸ hok
          · exact (ih pg.next).2 h2 v hv2

/-- Claim C8: on any page-request failure the handler shows the generic
flash error and dismisses the surface (and the failing request is the
last — no retry); on success no flash is shown; on both paths the
fetch-complete flags (`hasFetched`, `fetchInFlight` cleared, one-shot
latch) are set. -/
theorem c8_fetch_error_handling :
    ∀ (server : Nat → Except Unit FetchPage) (u0 : Nat),
      (runFetch server u0).hasFetched = true ∧
      (runFetch server u0).fetchInFlight = false ∧
      (runFetch server u0).initialLoadDone = true ∧
      (runFetch server u0).dismissed = (runFetch server u0).flashErrorShown ∧
      ((runFetch server u0).flashErrorShown = true →
        ∃ l u, (runFetch server u0).requests = l ++ [u] ∧
          (server u).isOk = false ∧ ∀ v ∈ l, (server v).isOk = true) ∧
      ((runFetch server u0).flashErrorShown = false →
        ∀ v ∈ (runFetch server u0).requests, (server v).isOk = true) := by
  intro server u0
  refine ⟨rfl, rfl, rfl, rfl, ?_, ?_⟩
  · exact (runFetchAux_spec server MAX_PAGES (some u0)).1
  · exact (runFetchAux_spec server MAX_PAGES (some u0)).2

/-- A concrete application of `c8_fetch_error_handling`: the server
failing on its third page yields a flash error whose failing request
ends the request list. -/
theorem c8_fetch_error_handling_witness :
    ∃ l u, (runFetch srvFail 0).requests = l ++ [u] ∧
      (srvFail u).isOk = false ∧ ∀ v ∈ l, (srvFail v).isOk = true :=
  (c8_fetch_error_handling srvFail 0).2.2.2.2.1 (by decide)

/-- Claim C9: a group-targeted module override (neither section nor
student ids) makes the module-assignee extraction emit an `undefined`
entry; that entry is never in the disabled set, so every recomputation
counts it as deleted and the unassign synthesis hits its error branch
(string operations applied to `undefined`). -/
theorem c9_undefined_module_assignee :
    ∀ (disabled : List String) (cards : StagedCards) (im : List Override),
      extractModuleAssignees [gmo] = [none] ∧
      deletedModuleAssignees (extractModuleAssignees [gmo]) disabled = [none] ∧
      recomputeEmitted cards (extractModuleAssignees [gmo]) disabled im =
        .error undefinedAssigneeError := by
  intro disabled cards im
  refine ⟨rfl, rfl, ?_⟩
  show Except.map (fun l => processModuleOverridesV2 l im)
    (synthesizeUnassigns (filterAssigned (getAllOverridesFromCards cards))
      (deletedModuleAssignees (extractModuleAssignees [gmo]) disabled)) =
    .error undefinedAssigneeError
  rw [show synthesizeUnassigns (filterAssigned (getAllOverridesFromCards cards))
      (deletedModuleAssignees (extractModuleAssignees [gmo]) disabled) =
      .error undefinedAssigneeError from rfl]
  rfl

/-- Looking up the written key after a JS object update returns the
written value. -/
theorem jsAssocSet_lookup :
    ∀ (cards : StagedCards) (k : String) (v : StagedCard),
      (jsAssocSet cards k v).lookup k = some v := by
  intro cards k v
  induction cards with
  | nil => simp [jsAssocSet, List.lookup]
  | cons e rest ih =>
    by_cases h : e.1 == k
    · simp [jsAssocSet, h, List.lookup]
    · have h2 : (k == e.1) = false := by
        simp only [Bool.not_eq_true] at h
        exact beq_eq_false_iff_ne.mpr (Ne.symm (beq_eq_false_iff_ne.mp h))
      simp only [jsAssocSet, h, Bool.false_eq_true, if_false, List.lookup, h2]
      exact ih

theorem Dates.getField_setField (d : Dates) (f : DateField) (v : Option String) :
    (d.setField f v).getField f = v := by
  cases f <;> rfl

theorem Override.getDateField_setDateAndFlag (o : Override) (f : DateField)
    (v : Option String) (b : Bool) : (o.setDateAndFlag f v b).getDateField f = v := by
  cases f <;> rfl

theorem Override.getOverriddenFlag_setDateAndFlag (o : Override) (f : DateField)
    (v : Option String) (b : Bool) : (o.setDateAndFlag f v b).getOverriddenFlag f = b := by
  cases f <;> rfl

theorem Override.getDateField_setDateField (o : Override) (f : DateField)
    (v : Option String) : (o.setDateField f v).getDateField f = v := by
  cases f <;> rfl

theorem Override.rowKey_setDateField (o : Override) (f : DateField)
    (v : Option String) : (o.setDateField f v).rowKey = o.rowKey := by
  cases f <;> rfl

/-- Claim C10: clearing a date field (empty-string `newDate`) stores
`null` and a false overridden flag in the card's overrides and dates,
while the flat staged-override entries of the same row key receive the
raw empty string — the two representations of the cleared date
diverge. -/
theorem c10_cleared_date_divergence :
    ∀ (cards : StagedCards) (staged : List Override) (cardId : String)
      (f : DateField) (card : StagedCard),
      cards.lookup cardId = some card →
      (∃ c, (handleDatesUpdate cards staged cardId f "").1.lookup cardId = some c ∧
        c.dates.getField f = none ∧
        c.overrides = card.overrides.map (fun o => o.setDateAndFlag f none false) ∧
        ∀ o ∈ c.overrides, o.getDateField f = none ∧ o.getOverriddenFlag f = false) ∧
      ∀ o ∈ (handleDatesUpdate cards staged cardId f "").2,
        o.rowKey.getD "undefined" = cardId → o.getDateField f = some "" := by
  intro cards staged cardId f card h
  constructor
  · refine ⟨{overrides := card.overrides.map (fun o => o.setDateAndFlag f none false),
             dates := card.dates.setField f none,
             index := card.index}, ?_, ?_, rfl, ?_⟩
    · show (updateCard cards cardId _ _).lookup cardId = _
      simp only [updateCard, h, Option.map_some, Option.getD_some]
      rw [show ((if ("" : String) == "" then none else some "") : Option String) =
        none from rfl]
      exact jsAssocSet_lookup cards cardId _
    · exact Dates.getField_setField card.dates f none
    · intro o ho
      obtain ⟨o₀, _, rfl⟩ := List.mem_map.mp ho
      exact ⟨Override.getDateField_setDateAndFlag o₀ f none false,
        Override.getOverriddenFlag_setDateAndFlag o₀ f none false⟩
  · intro o ho hrow
    have ho2 : o ∈ staged.map (fun o =>
        if (o.rowKey.getD "undefined") == cardId then
          o.setDateField f (some "") else o) := ho
    obtain ⟨o₀, _, rfl⟩ := List.mem_map.mp ho2
    by_cases hc : (o₀.rowKey.getD "undefined") == cardId
    · simp only [hc, if_true]
      exact Override.getDateField_setDateField o₀ f (some "")
    · exfalso
      simp only [Bool.not_eq_true] at hc
      rw [if_neg (by simp [hc])] at hrow
      exact absurd hrow (beq_eq_false_iff_ne.mp hc)

/-- A concrete application of `c10_cleared_date_divergence`: clearing
the due date of the only card stores `none` in the card projection. -/
theorem c10_cleared_date_divergence_witness :
    ∃ c, (handleDatesUpdate [("0", c10card)]
        [{rowKey := some "0", due_at := some "d", stagedOverrideId := some "s1"}]
        "0" DateField.due_at "").1.lookup "0" = some c ∧
      c.dates.getField DateField.due_at = none := by
  obtain ⟨⟨c, hc, hdate, _, _⟩, _⟩ := c10_cleared_date_divergence [("0", c10card)]
    [{rowKey := some "0", due_at := some "d", stagedOverrideId := some "s1"}]
    "0" DateField.due_at c10card rfl
  exact ⟨c, hc, hdate⟩

/-- An override whose `stagedOverrideId` is absent (as every synthesized
unassign override's is) passes through the module-override
reconciliation unchanged. -/
theorem pmv2_mem_of_none (o : Override) (hid : o.stagedOverrideId = none)
    (cur im : List Override) (ho : o ∈ cur) : o ∈ processModuleOverridesV2 cur im := by
  have hfind : im.find? (fun m =>
      m.stagedOverrideId.isSome && m.stagedOverrideId == o.stagedOverrideId) = none := by
    rw [List.find?_eq_none]
    intro m _
    rw [hid]
    cases hm : m.stagedOverrideId <;> simp [hm]
  refine List.mem_map.mpr ⟨o, ho, ?_⟩
  simp [hfind]

/-- Claim C1: module assignees no longer in the disabled set produce
synthesized unassign overrides in the emitted list — all deleted
student assignees batched into one `{student_ids, unassign_item}`
override, one `{course_section_id, unassign_item}` override per deleted
section assignee; in particular the module-inherited section-7 override
whose assignee was removed yields `{course_section_id: "7",
unassign_item: true}` in the emitted list. -/
theorem synthesizeUnassigns_ok_mem (base : List Override) (deleted : List (Option String))
    (hnone : deleted.any (fun a => a.isNone) = false) :
    ∃ R, synthesizeUnassigns base deleted = .ok R ∧
      (((deleted.filterMap (fun a => a)).filter (fun a => jsIncludes a "student")) ≠ [] →
        ({id := none,
          student_ids := some (((deleted.filterMap (fun a => a)).filter
            (fun a => jsIncludes a "student")).map (fun a => (jsSplitSecond a).getD "")),
          unassign_item := true} : Override) ∈ R) ∧
      (∀ s ∈ (((deleted.filterMap (fun a => a)).filter
          (fun a => jsIncludes a "section")).map (fun a => (jsSplitSecond a).getD "")),
        ({id := none, course_section_id := some s, unassign_item := true} : Override)
          ∈ R) := by
  by_cases hlen : deleted.length > 0
  · have hsynth : synthesizeUnassigns base deleted =
        .ok ((if (((deleted.filterMap (fun a => a)).filter
              (fun a => jsIncludes a "student")).map
                (fun a => (jsSplitSecond a).getD "")).length > 0 then
            base ++
              [{id := none,
                student_ids := some (((deleted.filterMap (fun a => a)).filter
                  (fun a => jsIncludes a "student")).map
                    (fun a => (jsSplitSecond a).getD "")),
                unassign_item := true}]
          else base) ++
          (((deleted.filterMap (fun a => a)).filter (fun a => jsIncludes a "section")).map
            (fun a => (jsSplitSecond a).getD "")).map (fun s =>
              {id := none, course_section_id := some s, unassign_item := true})) := by
      simp only [synthesizeUnassigns, if_pos hlen, hnone, Bool.false_eq_true, if_false]
    refine ⟨_, hsynth, ?_, ?_⟩
    · intro hst
      have hlen2 : (((deleted.filterMap (fun a => a)).filter
          (fun a => jsIncludes a "student")).map
            (fun a => (jsSplitSecond a).getD "")).length > 0 := by
        rw [List.length_map]
        exact List.length_pos_of_ne_nil hst
      rw [if_pos hlen2]
      simp [List.mem_append]
    · intro s hs
      refine List.mem_append_right _ ?_
      exact List.mem_map_of_mem _ hs
  · have hdel : deleted = [] := List.length_eq_zero.mp (Nat.eq_zero_of_not_pos hlen)
    subst hdel
    refine ⟨base, rfl, ?_, ?_⟩
    · intro hst
      simp at hst
    · intro s hs
      simp at hs

/-- Claim C1: module assignees no longer in the disabled set produce
synthesized unassign overrides in the emitted list — all deleted
student assignees batched into one `{student_ids, unassign_item}`
override, one `{course_section_id, unassign_item}` override per deleted
section assignee; in particular the module-inherited section-7 override
whose assignee was removed yields `{course_section_id: "7",
unassign_item: true}` in the emitted list. -/
theorem c1_unassign_synthesis :
    ∀ (cards : StagedCards) (ma : List (Option String)) (disabled : List String)
      (im : List Override),
      (∀ e ∈ deletedModuleAssignees ma disabled, e.isSome = true) →
      (∃ L, recomputeEmitted cards ma disabled im = .ok L ∧
        ((((deletedModuleAssignees ma disabled).filterMap (fun a => a)).filter
            (fun a => jsIncludes a "student")) ≠ [] →
          ({id := none,
            student_ids := some ((((deletedModuleAssignees ma disabled).filterMap
              (fun a => a)).filter (fun a => jsIncludes a "student")).map
                (fun a => (jsSplitSecond a).getD "")),
            unassign_item := true} : Override) ∈ L) ∧
        (∀ s ∈ ((((deletedModuleAssignees ma disabled).filterMap (fun a => a)).filter
            (fun a => jsIncludes a "section")).map (fun a => (jsSplitSecond a).getD "")),
          ({id := none, course_section_id := some s, unassign_item := true} : Override)
            ∈ L)) ∧
      recomputeEmitted [] (extractModuleAssignees [mo7]) [] [mo7] = .ok [secUnassign7] := by
  intro cards ma disabled im h
  refine ⟨?_, by decide⟩
  have hnone : (deletedModuleAssignees ma disabled).any (fun a => a.isNone) = false := by
    rw [List.any_eq_false]
    intro a ha
    cases a with
    | none => simpa using h none ha
    | some s => simp
  obtain ⟨R, hR, hst, hsec⟩ := synthesizeUnassigns_ok_mem
    (filterAssigned (getAllOverridesFromCards cards))
    (deletedModuleAssignees ma disabled) hnone
  refine ⟨processModuleOverridesV2 R im, ?_, ?_, ?_⟩
  · show Except.map (fun l => processModuleOverridesV2 l im)
      (synthesizeUnassigns (filterAssigned (getAllOverridesFromCards cards))
        (deletedModuleAssignees ma disabled)) = _
    rw [hR]
    rfl
  · intro hne
    exact pmv2_mem_of_none _ rfl _ im (hst hne)
  · intro s hs
    exact pmv2_mem_of_none _ rfl _ im (hsec s hs)

/-- A concrete application of `c1_unassign_synthesis`: a deleted
module section assignee `section-7` puts the synthesized unassign
override into the emitted list. -/
theorem c1_unassign_synthesis_witness :
    ∃ L, recomputeEmitted [] [some "section-7"] [] [] = .ok L ∧ secUnassign7 ∈ L := by
  obtain ⟨⟨L, hok, _, hsec⟩, _⟩ :=
    c1_unassign_synthesis [] [some "section-7"] [] [] (by decide)
  exact ⟨L, hok, hsec "7" (by decide)⟩

theorem isSome_of_not_isNone {α : Type} {o : Option α} (h : o.isNone = false) :
    o.isSome = true := by
  cases o <;> simp_all

/-- Every override coming out of the tagging pass carries a staged id. -/
theorem tagOverridesAux_all_some (gen : Nat → String) :
    ∀ (l : List Override) (n : Nat), ∀ o ∈ tagOverridesAux gen n l,
      o.stagedOverrideId.isSome = true := by
  intro l
  induction l with
  | nil => intro n o ho; simp [tagOverridesAux] at ho
  | cons x rest ih =>
    intro n o ho
    by_cases hx : x.stagedOverrideId.isNone = true
    · rw [tagOverridesAux, if_pos hx] at ho
      rcases List.mem_cons.mp ho with h1 | h1
      · subst h1; simp
      · exact ih (n + 1) o h1
    · rw [tagOverridesAux, if_neg hx] at ho
      rcases List.mem_cons.mp ho with h1 | h1
      · subst h1
        exact isSome_of_not_isNone (Bool.not_eq_true _ ▸ hx)
      · exact ih n o h1

/-- Tagging a fully tagged list changes nothing. -/
theorem tagOverridesAux_of_all_some (gen : Nat → String) :
    ∀ (l : List Override) (n : Nat), (∀ o ∈ l, o.stagedOverrideId.isSome = true) →
      tagOverridesAux gen n l = l := by
  intro l
  induction l with
  | nil => intro n _; rfl
  | cons x rest ih =>
    intro n h
    have hx : x.stagedOverrideId.isNone = false := by
      have := h x (List.mem_cons_self x rest)
      cases hx2 : x.stagedOverrideId <;> simp_all
    rw [tagOverridesAux, if_neg (by simp [hx])]
    rw [ih n (fun o ho => h o (List.mem_cons_of_mem x ho))]

/-- An already-tagged input override passes through the tagging pass. -/
theorem tagOverridesAux_mem_tagged (gen : Nat → String) :
    ∀ (l : List Override) (n : Nat) (o : Override), o ∈ l →
      o.stagedOverrideId.isSome = true → o ∈ tagOverridesAux gen n l := by
  intro l
  induction l with
  | nil => intro n o ho _; simp at ho
  | cons x rest ih =>
    intro n o ho hsome
    by_cases hx : x.stagedOverrideId.isNone = true
    · rw [tagOverridesAux, if_pos hx]
      rcases List.mem_cons.mp ho with h1 | h1
      · subst h1
        rw [Option.isNone_iff_eq_none.mp hx] at hsome
        simp at hsome
      · exact List.mem_cons_of_mem _ (ih (n + 1) o h1 hsome)
    · rw [tagOverridesAux, if_neg hx]
      rcases List.mem_cons.mp ho with h1 | h1
      · subst h1; exact List.mem_cons_self o _
      · exact List.mem_cons_of_mem _ (ih n o h1 hsome)

/-- Every staged id in the tagging output is either a generated id with
counter at least the starting counter, or one of the input's pre-set
ids. -/
theorem tagOverridesAux_id_origin (gen : Nat → String) :
    ∀ (l : List Override) (n : Nat) (x : Option String),
      x ∈ (tagOverridesAux gen n l).map (fun o => o.stagedOverrideId) →
      (∃ k, n ≤ k ∧ x = some (gen k)) ∨
        (∃ s, x = some s ∧ s ∈ l.filterMap (fun o => o.stagedOverrideId)) := by
  intro l
  induction l with
  | nil => intro n x hx; simp [tagOverridesAux] at hx
  | cons a rest ih =>
    intro n x hx
    by_cases ha : a.stagedOverrideId.isNone = true
    · rw [tagOverridesAux, if_pos ha, List.map_cons] at hx
      rcases List.mem_cons.mp hx with h1 | h1
      · exact Or.inl ⟨n, Nat.le_refl n, h1⟩
      · rcases ih (n + 1) x h1 with ⟨k, hk, hxk⟩ | ⟨s, hxs, hs⟩
        · exact Or.inl ⟨k, Nat.le_of_succ_le hk, hxk⟩
        · refine Or.inr ⟨s, hxs, ?_⟩
          rw [List.filterMap_cons, Option.isNone_iff_eq_none.mp ha]
          exact hs
    · rw [tagOverridesAux, if_neg ha, List.map_cons] at hx
      obtain ⟨sa, hsa⟩ := Option.isSome_iff_exists.mp
        (isSome_of_not_isNone (Bool.not_eq_true _ ▸ ha))
      rcases List.mem_cons.mp hx with h1 | h1
      · refine Or.inr ⟨sa, by rw [h1, hsa], ?_⟩
        rw [List.filterMap_cons, hsa]
        exact List.mem_cons_self sa _
      · rcases ih n x h1 with ⟨k, hk, hxk⟩ | ⟨s, hxs, hs⟩
        · exact Or.inl ⟨k, hk, hxk⟩
        · refine Or.inr ⟨s, hxs, ?_⟩
          rw [List.filterMap_cons, hsa]
          exact List.mem_cons_of_mem sa hs

/-- With an injective generator whose values are new, and pairwise
distinct pre-set ids, the tagging output's staged ids are pairwise
distinct. -/
theorem tagOverridesAux_nodup (gen : Nat → String) (hinj : Function.Injective gen) :
    ∀ (l : List Override) (n : Nat),
      (∀ (k : Nat) (o : Override), o ∈ l → o.stagedOverrideId ≠ some (gen k)) →
      (l.filterMap (fun o => o.stagedOverrideId)).Nodup →
      ((tagOverridesAux gen n l).map (fun o => o.stagedOverrideId)).Nodup := by
  intro l
  induction l with
  | nil => intro n _ _; simp [tagOverridesAux]
  | cons a rest ih =>
    intro n hfresh hnd
    by_cases ha : a.stagedOverrideId.isNone = true
    · have haid : a.stagedOverrideId = none := Option.isNone_iff_eq_none.mp ha
      rw [tagOverridesAux, if_pos ha, List.map_cons]
      refine List.nodup_cons.mpr ⟨?_, ?_⟩
      · intro hmem
        rcases tagOverridesAux_id_origin gen rest (n + 1) _ hmem with
          ⟨k, hk, heq⟩ | ⟨s, heq, hs⟩
        · have : n = k := hinj (Option.some.inj heq)
          omega
        · obtain ⟨o, ho, hid⟩ := List.mem_filterMap.mp hs
          exact hfresh n o (List.mem_cons_of_mem a ho)
            (by rw [hid, ← Option.some.inj heq])
      · refine ih (n + 1) (fun k o ho => hfresh k o (List.mem_cons_of_mem a ho)) ?_
        rw [List.filterMap_cons, haid] at hnd
        exact hnd
    · obtain ⟨sa, hsa⟩ := Option.isSome_iff_exists.mp
        (isSome_of_not_isNone (Bool.not_eq_true _ ▸ ha))
      rw [tagOverridesAux, if_neg ha, List.map_cons]
      have hnd2 : (sa :: rest.filterMap (fun o => o.stagedOverrideId)).Nodup := by
        rw [List.filterMap_cons, hsa] at hnd
        exact hnd
      refine List.nodup_cons.mpr ⟨?_, ?_⟩
      · intro hmem
        rw [hsa] at hmem
        rcases tagOverridesAux_id_origin gen rest n _ hmem with
          ⟨k, _, heq⟩ | ⟨s, heq, hs⟩
        · exact hfresh k a (List.mem_cons_self a rest) (by rw [hsa, heq])
        · have : s = sa := (Option.some.inj heq).symm
          subst this
          exact (List.nodup_cons.mp hnd2).1 hs
      · exact ih n (fun k o ho => hfresh k o (List.mem_cons_of_mem a ho))
          (List.nodup_cons.mp hnd2).2

/-- Adding an override whose staged id is already present replaces the
first matching entry in place: same length, new override present. -/
theorem replaceOrAppend_replaces :
    ∀ (staged : List Override) (n : Override),
      (∃ o ∈ staged, o.stagedOverrideId = n.stagedOverrideId) →
      (replaceOrAppend staged n).length = staged.length ∧
        n ∈ replaceOrAppend staged n := by
  intro staged
  induction staged with
  | nil => intro n h; simp at h
  | cons o rest ih =>
    intro n h
    by_cases hb : (o.stagedOverrideId == n.stagedOverrideId) = true
    · rw [replaceOrAppend, if_pos hb]
      exact ⟨by simp, List.mem_cons_self n rest⟩
    · obtain ⟨o2, ho2, heq⟩ := h
      have ho2r : o2 ∈ rest := by
        rcases List.mem_cons.mp ho2 with h1 | h1
        · exfalso
          subst h1
          exact absurd (beq_iff_eq.mpr heq) (by simpa using hb)
        · exact h1
      obtain ⟨hlen, hmem⟩ := ih n ⟨o2, ho2r, heq⟩
      rw [replaceOrAppend, if_neg hb]
      exact ⟨by simpa using hlen, List.mem_cons_of_mem o hmem⟩

/-- Counterexample to claim C3 as stated: an input list whose overrides
arrive already tagged with the same staged id passes through the
tagging effect unchanged, so the staged list's ids are NOT unique. -/
theorem c3_staged_ids_counterexample :
    tagOverrides genU dupTaggedInput = dupTaggedInput ∧
    ¬ (((tagOverrides genU dupTaggedInput).map
        (fun o => o.stagedOverrideId)).Nodup) := by
  constructor
  · rfl
  · intro h
    rw [show tagOverrides genU dupTaggedInput = dupTaggedInput from rfl] at h
    simp [dupTaggedInput] at h

/-- Claim C3 (amended): every override coming out of the tagging pass
has exactly one staged id, tagging is idempotent and passes tagged
overrides through unchanged; the staged ids are unique PROVIDED the
input's pre-set staged ids are pairwise distinct and the generated ids
are fresh and pairwise distinct; and adding an assignee whose override
carries an already-present staged id replaces the entry in place
rather than appending a duplicate. -/
theorem c3_staged_id_invariants_amended :
    ∀ (gen : Nat → String) (l : List Override),
      (∀ o ∈ tagOverrides gen l, o.stagedOverrideId.isSome = true) ∧
      tagOverrides gen (tagOverrides gen l) = tagOverrides gen l ∧
      (∀ o ∈ l, o.stagedOverrideId.isSome = true → o ∈ tagOverrides gen l) ∧
      (Function.Injective gen →
        (∀ (k : Nat) (o : Override), o ∈ l → o.stagedOverrideId ≠ some (gen k)) →
        (l.filterMap (fun o => o.stagedOverrideId)).Nodup →
        ((tagOverrides gen l).map (fun o => o.stagedOverrideId)).Nodup) ∧
      (∀ (staged : List Override) (n : Override),
        (∃ o ∈ staged, o.stagedOverrideId = n.stagedOverrideId) →
        (replaceOrAppend staged n).length = staged.length ∧
          n ∈ replaceOrAppend staged n) := by
  intro gen l
  refine ⟨tagOverridesAux_all_some gen l 0, ?_, ?_, ?_, replaceOrAppend_replaces⟩
  · exact tagOverridesAux_of_all_some gen (tagOverridesAux gen 0 l) 0
      (tagOverridesAux_all_some gen l 0)
  · exact fun o ho hsome => tagOverridesAux_mem_tagged gen l 0 o ho hsome
  · exact fun hinj hfresh hnd => tagOverridesAux_nodup gen hinj l 0 hfresh hnd

/-- `genU` is injective: distinct counters give distinct lengths. -/
theorem genU_injective : Function.Injective genU := by
  intro a b hab
  have hdata : List.replicate (a + 1) (Char.ofNat 117) =
      List.replicate (b + 1) (Char.ofNat 117) := congrArg String.data hab
  have hlen := congrArg List.length hdata
  simpa using hlen

/-- No input override of `c3wInput` carries a generated id. -/
theorem c3wInput_fresh :
    ∀ (k : Nat) (o : Override), o ∈ c3wInput → o.stagedOverrideId ≠ some (genU k) := by
  intro k o ho h
  rcases List.mem_cons.mp ho with h1 | h1
  · subst h1; simp at h
  · rcases List.mem_cons.mp h1 with h2 | h2
    · subst h2
      have hd : ("a" : String).data = List.replicate (k + 1) (Char.ofNat 117) :=
        congrArg String.data (Option.some.inj h)
      rw [List.replicate_succ] at hd
      have h2 : (("a" : String).data).head? = some (Char.ofNat 117) := by
        rw [hd]; rfl
      rw [show (("a" : String).data).head? = some (Char.ofNat 97) from rfl] at h2
      exact absurd (Option.some.inj h2) (by decide)
    · simp at h2

/-- A concrete application of `c3_staged_id_invariants_amended`: the
injective fresh generator tags `c3wInput` into a list with pairwise
distinct staged ids, and re-adding staged id `b` keeps the staged list
at one entry. -/
theorem c3_staged_id_invariants_amended_witness :
    ((tagOverrides genU c3wInput).map (fun o => o.stagedOverrideId)).Nodup ∧
    (replaceOrAppend c3wStaged c3wNew).length = c3wStaged.length ∧
    c3wNew ∈ replaceOrAppend c3wStaged c3wNew := by
  have h := c3_staged_id_invariants_amended genU c3wInput
  have hrep := h.2.2.2.2 c3wStaged c3wNew ⟨c3wStaged.head (by decide), by decide⟩
  exact ⟨h.2.2.2.1 genU_injective c3wInput_fresh (by decide), hrep.1, hrep.2⟩

/-- Membership in the JS `Set` dedup is membership in the input. -/
theorem mem_jsSetDedup_aux :
    ∀ (l acc : List String) (x : String),
      x ∈ l.foldl (fun acc x => if acc.contains x then acc else acc ++ [x]) acc ↔
        x ∈ acc ∨ x ∈ l := by
  intro l
  induction l with
  | nil => intro acc x; simp
  | cons y rest ih =>
    intro acc x
    simp only [List.foldl_cons]
    rw [ih]
    by_cases hy : acc.contains y = true
    · rw [if_pos hy]
      have hymem : y ∈ acc := List.elem_iff.mp hy
      constructor
      · rintro (h | h)
        · exact Or.inl h
        · exact Or.inr (List.mem_cons_of_mem y h)
      · rintro (h | h)
        · exact Or.inl h
        · rcases List.mem_cons.mp h with h2 | h2
          · exact Or.inl (h2 ▸ hymem)
          · exact Or.inr h2
    · rw [if_neg hy]
      simp only [List.mem_append, List.mem_singleton, List.mem_cons]
      tauto

theorem mem_jsSetDedup (l : List String) (x : String) :
    x ∈ jsSetDedup l ↔ x ∈ l := by
  rw [jsSetDedup, mem_jsSetDedup_aux]
  simp

/-- The accumulated `defaultOptions` is the concatenation of the
options of every override seen so far. -/
theorem foldl_cardOptionsStep_fst :
    ∀ (opts : List (List String)) (a b : List String),
      (opts.foldl cardOptionsStep (a, b)).1 = a ++ opts.flatten := by
  intro opts
  induction opts with
  | nil => intro a b; simp
  | cons os rest ih =>
    intro a b
    simp only [List.foldl_cons, cardOptionsStep, List.flatten_cons]
    rw [ih]
    simp [List.append_assoc]

/-- The selected-option contribution holds exactly the option ids of
the card's overrides (up to the starting accumulators). -/
theorem mem_foldl_cardOptionsStep_snd :
    ∀ (opts : List (List String)) (a b : List String) (x : String),
      x ∈ (opts.foldl cardOptionsStep (a, b)).2 ↔
        x ∈ b ∨ (opts ≠ [] ∧ (x ∈ a ∨ x ∈ opts.flatten)) := by
  intro opts
  induction opts with
  | nil => intro a b x; simp
  | cons os rest ih =>
    intro a b x
    simp only [List.foldl_cons, cardOptionsStep]
    rw [ih]
    by_cases hr : rest = []
    · subst hr
      simp only [List.flatten_cons, List.flatten_nil, List.append_nil,
        List.mem_append, ne_eq, List.cons_ne_self, not_false_eq_true, true_and,
        not_true_eq_false, false_and, or_false]
      try tauto
    · simp only [List.flatten_cons, List.mem_append, ne_eq, hr,
        not_false_eq_true, true_and, List.cons_ne_self]
      tauto

theorem mem_cardOptionsAccum_snd (opts : List (List String)) (x : String) :
    x ∈ (cardOptionsAccum opts).2 ↔ ∃ os ∈ opts, x ∈ os := by
  rw [cardOptionsAccum, mem_foldl_cardOptionsStep_snd]
  simp only [List.not_mem_nil, false_or, or_false]
  rw [← List.mem_flatten]
  constructor
  · rintro ⟨-, h⟩; exact h
  · intro h
    refine ⟨?_, h⟩
    rintro rfl
    simp at h

/-- Per card, the selected-option contribution and the deduped
`selectedAssigneeIds` have the same members. -/
theorem mem_projectCard_snd_iff (validate : Dates → List String)
    (dsid : Option String) (ek : String) (initState : StagedCards)
    (cardId : String) (card : StagedCard) (x : String) :
    x ∈ (projectCard validate dsid ek initState cardId card).2 ↔
      x ∈ (projectCard validate dsid ek initState cardId card).1.selectedAssigneeIds := by
  show x ∈ (cardOptionsAccum _).2 ↔ x ∈ jsSetDedup (cardOptionsAccum _).1
  rw [mem_cardOptionsAccum_snd, mem_jsSetDedup, cardOptionsAccum,
    foldl_cardOptionsStep_fst]
  simp [List.mem_flatten]

/-- Claim C4: a projected card's validity flag is true exactly when its
deduped selected-assignee list is non-empty and its dates pass
validation; a card with no overrides is always invalid, and a card with
an assignee and no date errors is valid. -/
theorem c4_card_validity :
    ∀ (validate : Dates → List String) (dsid : Option String) (ek : String)
      (initState cards : StagedCards),
      ((cardsProjection validate dsid ek initState cards).1 =
        cards.map (fun e => (projectCard validate dsid ek initState e.1 e.2).1)) ∧
      (∀ e ∈ cards,
        ((projectCard validate dsid ek initState e.1 e.2).1.isValid = true ↔
          ((projectCard validate dsid ek initState e.1 e.2).1.selectedAssigneeIds ≠ [] ∧
            validate e.2.dates = []))) ∧
      (∀ (cardId : String) (card : StagedCard), card.overrides = [] →
        (projectCard validate dsid ek initState cardId card).1.isValid = false) ∧
      (projectCard (fun _ => []) (some "ds") "everyone" [] "0"
        {overrides := [{student_ids := some ["5"]}]}).1.isValid = true ∧
      (projectCard (fun _ => []) (some "ds") "everyone" [] "0"
        ({} : StagedCard)).1.isValid = false := by
  intro validate dsid ek initState cards
  refine ⟨?_, ?_, ?_, by decide, by decide⟩
  · simp [cardsProjection, List.map_map, Function.comp]
  · intro e _
    show (decide ((jsSetDedup (cardOptionsAccum _).1).length > 0) &&
      (validate e.2.dates).isEmpty) = true ↔ _
    rw [Bool.and_eq_true, List.isEmpty_iff]
    constructor
    · rintro ⟨h1, h2⟩
      refine ⟨?_, h2⟩
      have := of_decide_eq_true h1
      exact List.length_pos.mp this
    · rintro ⟨h1, h2⟩
      exact ⟨decide_eq_true (List.length_pos.mpr h1), h2⟩
  · intro cardId card h
    have heq : (projectCard validate dsid ek initState cardId card).1.isValid =
        (decide ((jsSetDedup (cardOptionsAccum
          ((card.overrides).map (overrideCardOptions dsid ek))).1).length > 0) &&
          (validate card.dates).isEmpty) := rfl
    rw [heq, h]
    simp [cardOptionsAccum, jsSetDedup]

/-- A concrete application of `c4_card_validity`: a card holding a
student override and passing date validation is valid. -/
theorem c4_card_validity_witness :
    (projectCard (fun _ => []) (some "ds") "everyone" [] "1"
      {overrides := [{course_section_id := some "9"}]}).1.isValid = true := by
  have h := (c4_card_validity (fun _ => []) (some "ds") "everyone" []
    [("1", {overrides := [{course_section_id := some "9"}]})]).2.1
    ("1", {overrides := [{course_section_id := some "9"}]}) (by simp)
  exact h.mpr (by decide)

/-- Claim C6: the recomputed disabled-option list holds exactly the
assignee-option ids selected on the cards (the union); two cards with
disjoint assignee sets contribute the union of both; and an attempt to
claim an already-disabled option id yields the empty parsed card, which
the change handler ignores. -/
theorem c6_disabled_option_union :
    ∀ (validate : Dates → List String) (dsid : Option String) (ek : String)
      (initState cards : StagedCards),
      (∀ x, x ∈ (cardsProjection validate dsid ek initState cards).2 ↔
        ∃ e ∈ cards,
          x ∈ (projectCard validate dsid ek initState e.1 e.2).1.selectedAssigneeIds) ∧
      ((cardsProjection (fun _ => []) (some "ds") "everyone" []
        [("0", {overrides := [{student_ids := some ["1", "2"]}]}),
         ("1", {overrides := [{course_section_id := some "3"}]})]).2 =
        ["student-1", "student-2", "section-3"]) ∧
      (∀ (assignees : List AssigneeOption) (disabled : List String) (eid : String)
        (dsid2 : Option String) (hasMod : Bool),
        (∀ a ∈ assignees, a.id ∈ disabled) →
        parsedCardOf assignees disabled eid dsid2 hasMod = none) := by
  intro validate dsid ek initState cards
  refine ⟨?_, by decide, ?_⟩
  · intro x
    have heq : (cardsProjection validate dsid ek initState cards).2 =
        ((cards.map (fun e => projectCard validate dsid ek initState e.1 e.2)).map
          (fun r => r.2)).flatten := rfl
    rw [heq, List.mem_flatten]
    constructor
    · rintro ⟨l, hl, hx⟩
      obtain ⟨r, hr, rfl⟩ := List.mem_map.mp hl
      obtain ⟨e, he, rfl⟩ := List.mem_map.mp hr
      exact ⟨e, he, (mem_projectCard_snd_iff validate dsid ek initState e.1 e.2 x).mp hx⟩
    · rintro ⟨e, he, hx⟩
      refine ⟨(projectCard validate dsid ek initState e.1 e.2).2, ?_, ?_⟩
      · exact List.mem_map_of_mem _ (List.mem_map_of_mem _ he)
      · exact (mem_projectCard_snd_iff validate dsid ek initState e.1 e.2 x).mpr hx
  · intro assignees disabled eid dsid2 hasMod h
    have hfil : assignees.filter (fun a => !(disabled.contains a.id)) = [] := by
      rw [List.filter_eq_nil_iff]
      intro a ha
      have hc : disabled.contains a.id = true := List.elem_iff.mpr (h a ha)
      simp only [hc, Bool.not_true, Bool.false_eq_true, not_false_eq_true]
    rw [parsedCardOf, firstNonDisabledOption, hfil]
    rfl

/-- A concrete application of `c6_disabled_option_union`: offering only
an already-disabled assignee produces the empty parsed card. -/
theorem c6_disabled_option_union_witness :
    parsedCardOf [{id := "student-4"}] ["student-4"] "everyone" none false = none := by
  exact (c6_disabled_option_union (fun _ => []) none "" [] []).2.2
    [{id := "student-4"}] ["student-4"] "everyone" none false (by
      intro a ha
      simp at ha
      subst ha
      simp)

/-- Writing a staged id that is not yet a key of the accumulator object
appends a new key. -/
theorem updateAssoc_of_not_mem :
    ∀ (acc : List (Option String × Override)) (o : Override),
      (∀ p ∈ acc, p.1 ≠ o.stagedOverrideId) →
      updateAssoc acc o = acc ++ [(o.stagedOverrideId, o)] := by
  intro acc
  induction acc with
  | nil => intro o _; rfl
  | cons p rest ih =>
    intro o h
    have hb : (p.1 == o.stagedOverrideId) = false :=
      beq_eq_false_iff_ne.mpr (h p (List.mem_cons_self p rest))
    rw [updateAssoc, if_neg (by simp [hb])]
    rw [ih o (fun q hq => h q (List.mem_cons_of_mem p hq))]
    rfl

/-- Folding the accumulator-object updates over overrides with pairwise
distinct staged ids (all new to the accumulator) appends them in
order. -/
theorem foldl_updateAssoc_of_nodup :
    ∀ (l : List Override) (acc : List (Option String × Override)),
      (∀ o ∈ l, ∀ p ∈ acc, p.1 ≠ o.stagedOverrideId) →
      ((l.map (fun o => o.stagedOverrideId)).Nodup) →
      l.foldl updateAssoc acc = acc ++ l.map (fun o => (o.stagedOverrideId, o)) := by
  intro l
  induction l with
  | nil => intro acc _ _; simp
  | cons o rest ih =>
    intro acc hdisj hnd
    rw [List.foldl_cons,
      updateAssoc_of_not_mem acc o (hdisj o (List.mem_cons_self o rest))]
    rw [List.map_cons] at hnd
    have hnd2 := List.nodup_cons.mp hnd
    rw [ih (acc ++ [(o.stagedOverrideId, o)]) ?_ hnd2.2]
    · simp
    · intro o2 ho2 p hp
      rcases List.mem_append.mp hp with hp1 | hp1
      · exact hdisj o2 (List.mem_cons_of_mem o ho2) p hp1
      · rw [List.mem_singleton.mp hp1]
        intro hcontra
        have hcontra2 : o.stagedOverrideId = o2.stagedOverrideId := hcontra
        have hm : o2.stagedOverrideId ∈ rest.map (fun o => o.stagedOverrideId) :=
          List.mem_map_of_mem (fun o => o.stagedOverrideId) ho2
        rw [← hcontra2] at hm
        exact hnd2.1 hm

/-- With pairwise distinct staged ids the JS dedup is the identity. -/
theorem dedupLatest_of_nodup (l : List Override)
    (h : (l.map (fun o => o.stagedOverrideId)).Nodup) :
    dedupLatestByStagedId l = l := by
  rw [dedupLatestByStagedId, foldl_updateAssoc_of_nodup l [] (by simp) h]
  simp only [List.nil_append, List.map_map]
  exact List.map_id' l

theorem getLast?_cons_of_ne_nil {α : Type} (a : α) (l : List α) (h : l ≠ []) :
    (a :: l).getLast? = l.getLast? := by
  obtain ⟨b, t, rfl⟩ := List.exists_cons_of_ne_nil h
  exact List.getLast?_cons_cons

/-- Updating a key that the accumulator object already holds leaves its
key list unchanged. -/
theorem updateAssoc_keys_of_mem :
    ∀ (acc : List (Option String × Override)) (o : Override),
      o.stagedOverrideId ∈ acc.map (fun p => p.1) →
      (updateAssoc acc o).map (fun p => p.1) = acc.map (fun p => p.1) := by
  intro acc
  induction acc with
  | nil => intro o h; simp at h
  | cons q rest ih =>
    intro o h
    rw [List.map_cons] at h
    by_cases hb : (q.1 == o.stagedOverrideId) = true
    · rw [updateAssoc, if_pos hb]
      simp
    · rw [updateAssoc, if_neg hb, List.map_cons, List.map_cons]
      have hmem : o.stagedOverrideId ∈ rest.map (fun p => p.1) := by
        rcases List.mem_cons.mp h with h1 | h1
        · exact absurd (beq_iff_eq.mpr h1.symm) (by simpa using hb)
        · exact h1
      rw [ih o hmem]

/-- The accumulator object never acquires a duplicate key. -/
theorem updateAssoc_keys_nodup (acc : List (Option String × Override)) (o : Override)
    (h : (acc.map (fun p => p.1)).Nodup) :
    ((updateAssoc acc o).map (fun p => p.1)).Nodup := by
  by_cases hm : o.stagedOverrideId ∈ acc.map (fun p => p.1)
  · rw [updateAssoc_keys_of_mem acc o hm]
    exact h
  · have hne : ∀ p ∈ acc, p.1 ≠ o.stagedOverrideId := by
      intro p hp hcontra
      exact hm (hcontra ▸ List.mem_map_of_mem (fun p => p.1) hp)
    rw [updateAssoc_of_not_mem acc o hne, List.map_append]
    rw [List.nodup_append]
    refine ⟨h, by simp, ?_⟩
    intro k hk1 hk2
    simp only [List.map_cons, List.map_nil, List.mem_singleton] at hk2
    exact hm (hk2 ▸ hk1)

/-- Every accumulator entry keys its own value's staged id. -/
theorem updateAssoc_consistent :
    ∀ (acc : List (Option String × Override)) (o : Override),
      (∀ p ∈ acc, p.1 = p.2.stagedOverrideId) →
      ∀ p ∈ updateAssoc acc o, p.1 = p.2.stagedOverrideId := by
  intro acc
  induction acc with
  | nil =>
    intro o _ p hp
    rw [List.mem_singleton.mp hp]
  | cons q rest ih =>
    intro o h p hp
    by_cases hb : (q.1 == o.stagedOverrideId) = true
    · rw [updateAssoc, if_pos hb] at hp
      rcases List.mem_cons.mp hp with h1 | h1
      · rw [h1]
        exact beq_iff_eq.mp hb
      · exact h p (List.mem_cons_of_mem q h1)
    · rw [updateAssoc, if_neg hb] at hp
      rcases List.mem_cons.mp hp with h1 | h1
      · rw [h1]
        exact h q (List.mem_cons_self q rest)
      · exact ih o (fun p2 hp2 => h p2 (List.mem_cons_of_mem q hp2)) p h1

/-- An entry of the updated accumulator is the freshly written value at
the written key, or an untouched entry under a different key. -/
theorem updateAssoc_mem :
    ∀ (acc : List (Option String × Override)) (o : Override),
      (acc.map (fun p => p.1)).Nodup →
      ∀ p ∈ updateAssoc acc o,
        (p.2 = o ∧ p.1 = o.stagedOverrideId) ∨
          (p ∈ acc ∧ p.1 ≠ o.stagedOverrideId) := by
  intro acc
  induction acc with
  | nil =>
    intro o _ p hp
    rw [List.mem_singleton.mp hp]
    exact Or.inl ⟨rfl, rfl⟩
  | cons q rest ih =>
    intro o hnd p hp
    rw [List.map_cons] at hnd
    have hnd2 := List.nodup_cons.mp hnd
    by_cases hb : (q.1 == o.stagedOverrideId) = true
    · have hq1 : q.1 = o.stagedOverrideId := beq_iff_eq.mp hb
      rw [updateAssoc, if_pos hb] at hp
      rcases List.mem_cons.mp hp with h1 | h1
      · rw [h1]
        exact Or.inl ⟨rfl, hq1⟩
      · refine Or.inr ⟨List.mem_cons_of_mem q h1, ?_⟩
        intro hcontra
        refine hnd2.1 ?_
        rw [hq1, ← hcontra]
        exact List.mem_map_of_mem (fun p => p.1) h1
    · rw [updateAssoc, if_neg hb] at hp
      rcases List.mem_cons.mp hp with h1 | h1
      · refine Or.inr ⟨h1 ▸ List.mem_cons_self q rest, ?_⟩
        rw [h1]
        exact beq_eq_false_iff_ne.mp (by simpa using hb)
      · rcases ih o hnd2.2 p h1 with h2 | ⟨h2, h3⟩
        · exact Or.inl h2
        · exact Or.inr ⟨List.mem_cons_of_mem q h2, h3⟩

/-- The keys of the updated accumulator are the old keys plus the
written key. -/
theorem updateAssoc_mem_keys_iff :
    ∀ (acc : List (Option String × Override)) (o : Override) (k : Option String),
      k ∈ (updateAssoc acc o).map (fun p => p.1) ↔
        (k ∈ acc.map (fun p => p.1) ∨ k = o.stagedOverrideId) := by
  intro acc
  induction acc with
  | nil =>
    intro o k
    simp [updateAssoc]
  | cons q rest ih =>
    intro o k
    by_cases hb : (q.1 == o.stagedOverrideId) = true
    · have hq1 : q.1 = o.stagedOverrideId := beq_iff_eq.mp hb
      rw [updateAssoc, if_pos hb]
      simp only [List.map_cons, List.mem_cons]
      constructor
      · rintro (h | h)
        · exact Or.inl (Or.inl h)
        · exact Or.inl (Or.inr h)
      · rintro ((h | h) | h)
        · exact Or.inl h
        · exact Or.inr h
        · exact Or.inl (h.trans hq1.symm)
    · rw [updateAssoc, if_neg hb]
      simp only [List.map_cons, List.mem_cons]
      rw [ih o k]
      tauto

/-- The reduce over the accumulator object: keys stay pairwise
distinct and consistent, collect exactly the keys seen, and each final
entry holds the LAST occurrence of its key in the input (or an
untouched original entry when the input never wrote that key). -/
theorem foldl_updateAssoc_spec :
    ∀ (l : List Override) (acc : List (Option String × Override)),
      (acc.map (fun p => p.1)).Nodup →
      (∀ p ∈ acc, p.1 = p.2.stagedOverrideId) →
      (((l.foldl updateAssoc acc).map (fun p => p.1)).Nodup) ∧
      (∀ p ∈ l.foldl updateAssoc acc, p.1 = p.2.stagedOverrideId) ∧
      (∀ k, k ∈ (l.foldl updateAssoc acc).map (fun p => p.1) ↔
        (k ∈ acc.map (fun p => p.1) ∨ k ∈ l.map (fun o => o.stagedOverrideId))) ∧
      (∀ p ∈ l.foldl updateAssoc acc,
        (l.filter (fun q => q.stagedOverrideId == p.1)).getLast? = some p.2 ∨
          ((l.filter (fun q => q.stagedOverrideId == p.1)) = [] ∧ p ∈ acc)) := by
  intro l
  induction l with
  | nil =>
    intro acc hnd hcons
    refine ⟨hnd, hcons, fun k => by simp, fun p hp => Or.inr ⟨rfl, hp⟩⟩
  | cons o rest ih =>
    intro acc hnd hcons
    have hnd2 : ((updateAssoc acc o).map (fun p => p.1)).Nodup :=
      updateAssoc_keys_nodup acc o hnd
    have hcons2 : ∀ p ∈ updateAssoc acc o, p.1 = p.2.stagedOverrideId :=
      updateAssoc_consistent acc o hcons
    obtain ⟨Hn, Hc, Hk, Hl⟩ := ih (updateAssoc acc o) hnd2 hcons2
    refine ⟨Hn, Hc, ?_, ?_⟩
    · intro k
      rw [show (o :: rest).foldl updateAssoc acc =
        rest.foldl updateAssoc (updateAssoc acc o) from rfl]
      rw [Hk k, updateAssoc_mem_keys_iff acc o k]
      simp only [List.map_cons, List.mem_cons]
      tauto
    · intro p hp
      rw [show (o :: rest).foldl updateAssoc acc =
        rest.foldl updateAssoc (updateAssoc acc o) from rfl] at hp
      rcases Hl p hp with hl | ⟨hfil, hpacc⟩
      · left
        have hne : rest.filter (fun q => q.stagedOverrideId == p.1) ≠ [] := by
          intro hnil
          rw [hnil] at hl
          simp at hl
        rw [List.filter_cons]
        by_cases hoo : (o.stagedOverrideId == p.1) = true
        · rw [if_pos hoo, getLast?_cons_of_ne_nil o _ hne]
          exact hl
        · rw [if_neg hoo]
          exact hl
      · rcases updateAssoc_mem acc o hnd p hpacc with ⟨hp2, hp1⟩ | ⟨hpacc2, hp1⟩
        · left
          rw [List.filter_cons, if_pos (beq_iff_eq.mpr hp1.symm), hfil, hp2]
          rfl
        · right
          refine ⟨?_, hpacc2⟩
          rw [List.filter_cons,
            if_neg (by simp [beq_eq_false_iff_ne.mpr (Ne.symm hp1)]), hfil]

/-- After the dedup, staged ids are pairwise distinct: duplicates have
been pruned. -/
theorem dedupLatest_ids_nodup (l : List Override) :
    ((dedupLatestByStagedId l).map (fun o => o.stagedOverrideId)).Nodup := by
  have h := foldl_updateAssoc_spec l [] (by simp) (by simp)
  rw [dedupLatestByStagedId, List.map_map]
  have heq : (l.foldl updateAssoc []).map
      ((fun o : Override => o.stagedOverrideId) ∘ (fun p : Option String × Override => p.2)) =
      (l.foldl updateAssoc []).map (fun p => p.1) :=
    List.map_congr_left (fun p hp => (h.2.1 p hp).symm)
  rw [heq]
  exact h.1

/-- Every survivor of the dedup is the LAST occurrence of its staged id
in the input list. -/
theorem dedupLatest_mem_latest (l : List Override) (o : Override)
    (ho : o ∈ dedupLatestByStagedId l) :
    (l.filter (fun q => q.stagedOverrideId == o.stagedOverrideId)).getLast? = some o := by
  rw [dedupLatestByStagedId] at ho
  obtain ⟨p, hp, rfl⟩ := List.mem_map.mp ho
  have h := foldl_updateAssoc_spec l [] (by simp) (by simp)
  have hc := h.2.1 p hp
  rcases h.2.2.2 p hp with hl | ⟨_, habs⟩
  · rw [← hc]
    exact hl
  · simp at habs

/-- No staged id is lost by the dedup: only duplicates collapse. -/
theorem dedupLatest_ids_complete (l : List Override) (k : Option String)
    (hk : k ∈ l.map (fun o => o.stagedOverrideId)) :
    k ∈ (dedupLatestByStagedId l).map (fun o => o.stagedOverrideId) := by
  have h := foldl_updateAssoc_spec l [] (by simp) (by simp)
  have hk2 : k ∈ (l.foldl updateAssoc []).map (fun p => p.1) :=
    (h.2.2.1 k).mpr (Or.inr hk)
  rw [dedupLatestByStagedId, List.map_map]
  have heq : (l.foldl updateAssoc []).map
      ((fun o : Override => o.stagedOverrideId) ∘ (fun p : Option String × Override => p.2)) =
      (l.foldl updateAssoc []).map (fun p => p.1) :=
    List.map_congr_left (fun p hp => (h.2.1 p hp).symm)
  rw [heq]
  exact hk2

/-- Claim C5: deleting the last remaining assignee of a card leaves one
placeholder override — the first old override with every
assignee-identifying field removed and its dates preserved — followed
by the other cards' overrides kept unchanged; and the dedup step of
the handler prunes duplicates by keeping, per staged-override-id, the
LATEST occurrence: output ids are pairwise distinct, every survivor is
the last input entry with its id, no id is lost, and on a concrete
staged state whose two cards share a staged id the handler keeps only
the later card's override. -/
theorem c5_last_assignee_placeholder :
    (∀ (remove : String → List Override → List Override) (cards : StagedCards)
      (cardId token : String) (card : StagedCard) (first : Override)
      (rest : List Override),
      cards.lookup cardId = some card →
      card.overrides = first :: rest →
      remove token card.overrides = [] →
      ((stripAssigneeFields first ::
        (getAllOverridesFromCards cards).filter
          (fun o => !(o.rowKey == some cardId))).map
            (fun o => o.stagedOverrideId)).Nodup →
      handleAssigneeDeletion remove cards cardId token =
        stripAssigneeFields first ::
          (getAllOverridesFromCards cards).filter
            (fun o => !(o.rowKey == some cardId)) ∧
      (stripAssigneeFields first).student_ids = none ∧
      (stripAssigneeFields first).students = none ∧
      (stripAssigneeFields first).course_section_id = none ∧
      (stripAssigneeFields first).group_id = none ∧
      (stripAssigneeFields first).noop_id = none ∧
      (stripAssigneeFields first).course_id = none ∧
      (stripAssigneeFields first).due_at = first.due_at ∧
      (stripAssigneeFields first).unlock_at = first.unlock_at ∧
      (stripAssigneeFields first).lock_at = first.lock_at ∧
      (stripAssigneeFields first).reply_to_topic_due_at = first.reply_to_topic_due_at ∧
      (stripAssigneeFields first).required_replies_due_at =
        first.required_replies_due_at ∧
      (stripAssigneeFields first).stagedOverrideId = first.stagedOverrideId) ∧
    (∀ l : List Override,
      ((dedupLatestByStagedId l).map (fun o => o.stagedOverrideId)).Nodup) ∧
    (∀ (l : List Override) (o : Override), o ∈ dedupLatestByStagedId l →
      (l.filter
        (fun q => q.stagedOverrideId == o.stagedOverrideId)).getLast? = some o) ∧
    (∀ (l : List Override) (k : Option String),
      k ∈ l.map (fun o => o.stagedOverrideId) →
      k ∈ (dedupLatestByStagedId l).map (fun o => o.stagedOverrideId)) ∧
    handleAssigneeDeletion remNoneFn c5dupCards "0" "student-1" = [c5dupB] := by
  refine ⟨?_, dedupLatest_ids_nodup, dedupLatest_mem_latest,
    dedupLatest_ids_complete, by decide⟩
  intro remove cards cardId token card first rest h hov hrem hnd
  refine ⟨?_, rfl, rfl, rfl, rfl, rfl, rfl, rfl, rfl, rfl, rfl, rfl, rfl⟩
  have htarget : ((cards.lookup cardId).map (fun c => c.overrides)).getD [] =
      first :: rest := by
    rw [h]
    simp [hov]
  have hrem2 : remove token (first :: rest) = [] := by
    rw [← hov]
    exact hrem
  show dedupLatestByStagedId _ = _
  rw [htarget, hrem2]
  simp only [List.length_nil, List.head?_cons]
  rw [if_pos (by trivial)]
  exact dedupLatest_of_nodup _ hnd

/-- A concrete application of `c5_last_assignee_placeholder`: removing
the last assignee of card 0 yields the stripped placeholder followed by
card 1's override. -/
theorem c5_last_assignee_placeholder_witness :
    handleAssigneeDeletion remNoneFn c5cards "0" "student-1" =
      stripAssigneeFields c5first ::
        (getAllOverridesFromCards c5cards).filter
          (fun o => !(o.rowKey == some "0")) := by
  exact (c5_last_assignee_placeholder.1 remNoneFn c5cards "0" "student-1"
    {overrides := [c5first], dates := {due_at := some "D"}} c5first []
    rfl rfl rfl (by decide)).1

/-- Claim C7: the derivation of initial cards adds the implicit
everyone card exactly when the item is visible to everyone and no
override targets the whole course; unassign-marker overrides yield no
card; the section-42 example yields exactly 2 cards (the everyone card
first); appending an unassign override to it changes nothing; and a
module section card fully superseded by an explicit override on the
same section is skipped. -/
theorem c7_initial_card_derivation :
    ∀ (resp : DateDetails),
      ((everyoneCardOf resp ≠ []) ↔
        (resp.visible_to_everyone = true ∧
          ∀ o ∈ resp.overrides, truthyS o.course_id = false)) ∧
      (∀ o ∈ resp.overrides, o.unassign_item = true →
        overrideCardFor (getOverriddenAssignees resp.overrides) o = none) ∧
      (deriveCards resp42).length = 2 ∧
      (deriveCards resp42).map (fun c => c.selectedAssigneeIds) =
        [["everyone"], ["section-42"]] ∧
      deriveCards resp42u = deriveCards resp42 ∧
      (deriveCards respSup).map (fun c => c.selectedAssigneeIds) = [["section-7"]] := by
  intro resp
  refine ⟨?_, ?_, by decide, by decide, by decide, by decide⟩
  · have hcond : (everyoneCardOf resp ≠ []) ↔
        (resp.visible_to_everyone &&
          !(resp.overrides.any (fun o => truthyS o.course_id))) = true := by
      by_cases hc : (resp.visible_to_everyone &&
          !(resp.overrides.any (fun o => truthyS o.course_id))) = true
      · rw [everyoneCardOf, if_pos hc]
        simp [hc]
      · rw [everyoneCardOf, if_neg hc]
        simp [hc]
    rw [hcond, Bool.and_eq_true, Bool.not_eq_true', List.any_eq_false]
    simp [Bool.not_eq_true]
  · intro o _ hu
    rw [overrideCardFor, if_pos hu]

/-- A concrete application of `c7_initial_card_derivation`: the
section-42 response is visible to everyone with no course override, so
the implicit everyone card is present. -/
theorem c7_initial_card_derivation_witness : everyoneCardOf resp42 ≠ [] := by
  exact (c7_initial_card_derivation resp42).1.mpr (by decide)

end AssignTo
